import Mathlib

/-!
# Constraint collection of the Andersen pointer analysis

A shallow embedding of `lib/ConstraintCollect.cpp`: the two member functions
`Andersen::collectConstraints` and `Andersen::collectConstraintsForInstruction`,
over a small model of the LLVM IR entities they read (opcode, static type,
operands, enclosing function) and of the analysis state they write (the node
factory, the constraint list, the diagnostic stream).

Assertions are modelled as enabled: a failed `assert` and `llvm_unreachable`
halt the run with an `InternalError`, and the state reached at that point is
kept in the outcome.
-/

namespace AndersAA

/-! ## The IR entities read by the collector -/

/-- The opcodes of `llvm/IR/Instruction.def` in the LLVM 3.x line the analysis is
written against (the one with `ImmutableCallSite`). -/
inductive Opcode
  | Ret | Br | Switch | IndirectBr | Invoke | Resume | Unreachable
  | Add | FAdd | Sub | FSub | Mul | FMul | UDiv | SDiv | FDiv | URem | SRem | FRem
  | Shl | LShr | AShr | And | Or | Xor
  | Alloca | Load | Store | GetElementPtr | Fence | AtomicCmpXchg | AtomicRMW
  | Trunc | ZExt | SExt | FPToUI | FPToSI | UIToFP | SIToFP | FPTrunc | FPExt
  | PtrToInt | IntToPtr | BitCast | AddrSpaceCast
  | ICmp | FCmp | PHI | Call | Select | UserOp1 | UserOp2 | VAArg
  | ExtractElement | InsertElement | ShuffleVector | ExtractValue | InsertValue
  | LandingPad
  deriving DecidableEq, Repr

/-- Static types, as far as the collector looks at them: it only ever asks
`isPointerTy`. -/
inductive Ty
  | Void
  | Integer (bits : Nat)
  | FloatingPoint
  | Label
  | Pointer (pointee : Ty)
  | Vector (element : Ty)
  | Aggregate (tag : Nat)
  deriving DecidableEq, Repr

/-- The test `Type::isPointerTy()`. -/
def Ty.isPointerTy : Ty → Bool
  | .Pointer _ => true
  | _ => false

/-- The kinds of `llvm::Value` that can occur as an instruction or as an operand. -/
inductive ValueKind
  | Instruction | Argument | GlobalVariable | Function | BasicBlock
  | ConstantPointerNull | UndefValue | ConstantExpr | ConstantData
  deriving DecidableEq, Repr

/-- An `llvm::Value`. The C++ code handles values through `const Value *`; equality
of two such pointers is equality of the records here (`id` plays the part of the
address, and one object has one kind and one static type). -/
structure Value where
  kind : ValueKind
  id : Nat
  type : Ty
  deriving DecidableEq, Repr

/-- An `llvm::Instruction`: its identity and static type, its opcode, its operand
list and the function it sits in (`inst->getParent()->getParent()`). -/
structure Instruction where
  id : Nat
  type : Ty
  opcode : Opcode
  operands : List Value
  parent : Value
  deriving DecidableEq, Repr

/-- The instruction as a `const Value *` (an `Instruction` is a `Value`). -/
def Instruction.value (inst : Instruction) : Value := ⟨.Instruction, inst.id, inst.type⟩

/-- The static type `inst->getType()`. -/
def Instruction.getType (inst : Instruction) : Ty := inst.type

/-- The count `inst->getNumOperands()`. -/
def Instruction.getNumOperands (inst : Instruction) : Nat := inst.operands.length

/-- The access `inst->getOperand(i)`; `none` when `i` is out of range (LLVM asserts
on it). -/
def Instruction.getOperand (inst : Instruction) (i : Nat) : Option Value := inst.operands[i]?

/-- An `llvm::Function`; `instructions` is the range `inst_begin(f) .. inst_end(f)`,
the instructions of all its basic blocks in order. -/
structure Function where
  value : Value
  isDeclaration : Bool
  isIntrinsic : Bool
  instructions : List Instruction
  deriving DecidableEq, Repr

/-- An `llvm::Module`, as the collector iterates it: its functions in order. -/
structure Module where
  functions : List Function
  deriving DecidableEq, Repr

/-! ## Nodes and constraints -/

/-- Node identities (`NodeIndex`). -/
abbrev NodeIndex := Nat

/-- The constraint kinds of `AndersConstraint`. -/
inductive ConstraintType
  | ADDR_OF | COPY | LOAD | STORE
  deriving DecidableEq, Repr

/-- One entry of the constraint list: the arguments of
`constraints.emplace_back(type, dest, src)`. -/
structure AndersConstraint where
  type : ConstraintType
  dest : NodeIndex
  src : NodeIndex
  deriving DecidableEq, Repr

/-- The kinds of per-program node the node model hands out. -/
inductive AndersNodeType
  | VALUE_NODE | OBJ_NODE | RETURN_NODE
  deriving DecidableEq, Repr

/-- One per-program node: its kind and the program entity it was created for. -/
structure AndersNode where
  type : AndersNodeType
  value : Value
  deriving DecidableEq, Repr

/-- Modelled from the spec: the node factory (`AndersNodeFactory`, declared in
`Andersen.h` and defined elsewhere in the repository, not in
`ConstraintCollect.cpp`). It holds the per-program nodes in creation order; four
reserved identities exist before any of them, so the node at position `k` has
identity `4 + k`. Identities are never reused or changed: nodes are only ever
added at the end. -/
structure AndersNodeFactory where
  nodes : List AndersNode
  deriving DecidableEq, Repr

/-- Modelled from the spec: the reserved universal-pointer node of the node factory. -/
def AndersNodeFactory.getUniversalPtrNode : NodeIndex := 0

/-- Modelled from the spec: the reserved universal-object node of the node factory. -/
def AndersNodeFactory.getUniversalObjNode : NodeIndex := 1

/-- Modelled from the spec: the reserved null-pointer node of the node factory. -/
def AndersNodeFactory.getNullPtrNode : NodeIndex := 2

/-- Modelled from the spec: the reserved null-object node of the node factory. -/
def AndersNodeFactory.getNullObjectNode : NodeIndex := 3

/-- Modelled from the spec: the number of reserved identities of the node factory. -/
def AndersNodeFactory.numReserved : Nat := 4

/-- Modelled from the spec: the lookup of the node factory by kind and program
entity, over the nodes from identity `i` on; the first node created for the entity
is its node. -/
def lookupFrom (k : AndersNodeType) (v : Value) : List AndersNode → NodeIndex → Option NodeIndex
  | [], _ => none
  | n :: ns, i => if n.type = k ∧ n.value = v then some i else lookupFrom k v ns (i + 1)

/-- Modelled from the spec: `getValueNodeFor(entity) -> Node | not-found` of the node
factory; `none` is `AndersNodeFactory::InvalidIndex`. The null pointer constant is
represented by the reserved null-pointer node. -/
def AndersNodeFactory.getValueNodeFor (nf : AndersNodeFactory) (v : Value) : Option NodeIndex :=
  if v.kind = ValueKind.ConstantPointerNull then some AndersNodeFactory.getNullPtrNode
  else lookupFrom AndersNodeType.VALUE_NODE v nf.nodes AndersNodeFactory.numReserved

/-- Modelled from the spec: the object-node lookup of the node factory (the object
node of an allocation site); `none` is not-found. -/
def AndersNodeFactory.getObjectNodeFor (nf : AndersNodeFactory) (v : Value) : Option NodeIndex :=
  lookupFrom AndersNodeType.OBJ_NODE v nf.nodes AndersNodeFactory.numReserved

/-- Modelled from the spec: `getReturnNodeFor(function) -> Node | not-found` of the
node factory. -/
def AndersNodeFactory.getReturnNodeFor (nf : AndersNodeFactory) (f : Value) : Option NodeIndex :=
  lookupFrom AndersNodeType.RETURN_NODE f nf.nodes AndersNodeFactory.numReserved

/-- Modelled from the spec: `createValueNode(entity) -> Node` of the node factory.
Creation is idempotent: an entity that has a value node keeps it; otherwise a node
with the next unused identity is added. Identities are unbounded here, so creation
always produces a node. -/
def AndersNodeFactory.createValueNode (nf : AndersNodeFactory) (v : Value) :
    AndersNodeFactory × NodeIndex :=
  match nf.getValueNodeFor v with
  | some n => (nf, n)
  | none =>
    ({ nodes := nf.nodes ++ [⟨AndersNodeType.VALUE_NODE, v⟩] },
      AndersNodeFactory.numReserved + nf.nodes.length)

/-- Modelled from the spec: `createObjectNode(entity) -> Node` of the node factory: a
node with the next unused identity is added for the entity. -/
def AndersNodeFactory.createObjectNode (nf : AndersNodeFactory) (v : Value) :
    AndersNodeFactory × NodeIndex :=
  ({ nodes := nf.nodes ++ [⟨AndersNodeType.OBJ_NODE, v⟩] },
    AndersNodeFactory.numReserved + nf.nodes.length)

/-! ## The analysis state -/

/-- What the collector writes to `errs()`. -/
inductive Diagnostic
  | printInst (inst : Instruction)
  | notImplementedYet
  deriving DecidableEq, Repr

/-- The ways a run halts: the failed assertions of `ConstraintCollect.cpp` (all but
the one on the call site, which holds for every call and invoke), its
`llvm_unreachable`, and the range assertion of `getOperand`. -/
inductive InternalError
  | failedToFindAllocaValueNode
  | failedToFindReturnNode
  | failedToFindReturnValueNode
  | failedToFindLoadOperandNode
  | failedToFindLoadValueNode
  | failedToFindStoreSrcNode
  | failedToFindStoreDstNode
  | gepNotPointerTy
  | failedToFindGepSrcNode
  | failedToFindGepDstNode
  | failedToFindPhiDstNode
  | failedToFindPhiSrcNode
  | pointerRelatedInstNotHandled
  | operandOutOfRange
  deriving DecidableEq, Repr

/-- The members of `class Andersen` that constraint collection touches, and the
diagnostic stream. -/
structure Andersen where
  nodeFactory : AndersNodeFactory
  constraints : List AndersConstraint
  errs : List Diagnostic
  deriving DecidableEq, Repr

/-- The call `constraints.emplace_back(type, dest, src)`. -/
def Andersen.emplace_back (s : Andersen) (t : ConstraintType) (dest src : NodeIndex) : Andersen :=
  { s with constraints := s.constraints ++ [⟨t, dest, src⟩] }

/-- One write to `errs()`. -/
def Andersen.log (s : Andersen) (d : Diagnostic) : Andersen :=
  { s with errs := s.errs ++ [d] }

/-- How a call ends: normally, or halted by an internal error; either way with the
state reached. -/
inductive Outcome
  | done (s : Andersen)
  | abort (e : InternalError) (s : Andersen)
  deriving DecidableEq, Repr

/-- The state an outcome carries. -/
def Outcome.state : Outcome → Andersen
  | .done s => s
  | .abort _ s => s

/-- Whether the call ended normally. -/
def Outcome.isDone : Outcome → Bool
  | .done _ => true
  | .abort _ _ => false

/-- The call-site delegate `Andersen::addConstraintForCall`, defined elsewhere in
the repository: taken as a parameter. -/
abbrev CallDelegate := Instruction → Andersen → Outcome

/-! ## `Andersen::collectConstraintsForInstruction` -/

/-- The `default:` block of the switch. -/
def defaultCase (inst : Instruction) (s : Andersen) : Outcome :=
  if inst.getType.isPointerTy then
    .abort .pointerRelatedInstNotHandled (s.log (.printInst inst))
  else
    .done s

/-- The block under `case Instruction::LandingPad: .. AtomicCmpXchg:`. It has no
`break`, so control runs on into the `default:` block. -/
def notImplementedCase (inst : Instruction) (s : Andersen) : Outcome :=
  defaultCase inst ((s.log (.printInst inst)).log .notImplementedYet)

/-- The loop over the incoming values of a PHI node, from the current index on. -/
def phiLoop (dstIndex : NodeIndex) : List Value → Andersen → Outcome
  | [], s => .done s
  | v :: vs, s =>
    match s.nodeFactory.getValueNodeFor v with
    | none => .abort .failedToFindPhiSrcNode s
    | some srcIndex => phiLoop dstIndex vs (s.emplace_back .COPY dstIndex srcIndex)

/-- The function `Andersen::collectConstraintsForInstruction`. -/
def collectConstraintsForInstruction (addConstraintForCall : CallDelegate)
    (inst : Instruction) (s : Andersen) : Outcome :=
  match inst.opcode with
  | .Alloca =>
    match s.nodeFactory.getValueNodeFor inst.value with
    | none => .abort .failedToFindAllocaValueNode s
    | some valNode =>
      let r := s.nodeFactory.createObjectNode inst.value
      .done ({ s with nodeFactory := r.1 }.emplace_back .ADDR_OF valNode r.2)
  | .Call | .Invoke =>
    -- `ImmutableCallSite cs(inst)` is non-null for a call or an invoke
    addConstraintForCall inst s
  | .Ret =>
    match inst.getOperand 0 with
    | none => .done s
    | some op0 =>
      if op0.type.isPointerTy then
        match s.nodeFactory.getReturnNodeFor inst.parent with
        | none => .abort .failedToFindReturnNode s
        | some retIndex =>
          match s.nodeFactory.getValueNodeFor op0 with
          | none => .abort .failedToFindReturnValueNode s
          | some valIndex => .done (s.emplace_back .COPY retIndex valIndex)
      else .done s
  | .Load =>
    if inst.getType.isPointerTy then
      match inst.getOperand 0 with
      | none => .abort .operandOutOfRange s
      | some op0 =>
        match s.nodeFactory.getValueNodeFor op0 with
        | none => .abort .failedToFindLoadOperandNode s
        | some opIndex =>
          match s.nodeFactory.getValueNodeFor inst.value with
          | none => .abort .failedToFindLoadValueNode s
          | some valIndex => .done (s.emplace_back .LOAD valIndex opIndex)
    else .done s
  | .Store =>
    match inst.getOperand 0 with
    | none => .abort .operandOutOfRange s
    | some op0 =>
      if op0.type.isPointerTy then
        match s.nodeFactory.getValueNodeFor op0 with
        | none => .abort .failedToFindStoreSrcNode s
        | some srcIndex =>
          match inst.getOperand 1 with
          | none => .abort .operandOutOfRange s
          | some op1 =>
            match s.nodeFactory.getValueNodeFor op1 with
            | none => .abort .failedToFindStoreDstNode s
            | some dstIndex => .done (s.emplace_back .STORE dstIndex srcIndex)
      else .done s
  | .GetElementPtr =>
    if inst.getType.isPointerTy then
      match inst.getOperand 0 with
      | none => .abort .operandOutOfRange s
      | some op0 =>
        match s.nodeFactory.getValueNodeFor op0 with
        | none => .abort .failedToFindGepSrcNode s
        | some srcIndex =>
          match s.nodeFactory.getValueNodeFor inst.value with
          | none => .abort .failedToFindGepDstNode s
          | some dstIndex => .done (s.emplace_back .COPY dstIndex srcIndex)
    else .abort .gepNotPointerTy s
  | .PHI =>
    if inst.getType.isPointerTy then
      match s.nodeFactory.getValueNodeFor inst.value with
      | none => .abort .failedToFindPhiDstNode s
      | some dstIndex => phiLoop dstIndex inst.operands s
    else .done s
  | .BitCast | .IntToPtr | .Select | .VAArg | .ExtractValue | .InsertValue =>
    if !inst.getType.isPointerTy then .done s
    else notImplementedCase inst s
  | .LandingPad | .Resume | .AtomicRMW | .AtomicCmpXchg =>
    notImplementedCase inst s
  | _ => defaultCase inst s

/-! ## `Andersen::collectConstraints` -/

/-- The three constraints emitted at the start of `collectConstraints`. -/
def bootstrapConstraints : List AndersConstraint :=
  [⟨.ADDR_OF, AndersNodeFactory.getUniversalPtrNode, AndersNodeFactory.getUniversalObjNode⟩,
   ⟨.STORE, AndersNodeFactory.getUniversalObjNode, AndersNodeFactory.getUniversalObjNode⟩,
   ⟨.ADDR_OF, AndersNodeFactory.getNullPtrNode, AndersNodeFactory.getNullObjectNode⟩]

/-- The three `emplace_back` calls at the start of `collectConstraints`. -/
def bootstrap (s : Andersen) : Andersen :=
  ((s.emplace_back .ADDR_OF AndersNodeFactory.getUniversalPtrNode
        AndersNodeFactory.getUniversalObjNode).emplace_back
      .STORE AndersNodeFactory.getUniversalObjNode
        AndersNodeFactory.getUniversalObjNode).emplace_back
    .ADDR_OF AndersNodeFactory.getNullPtrNode AndersNodeFactory.getNullObjectNode

/-- The first inner loop: a value node for each instruction with pointer type. -/
def registerValueNodes : List Instruction → Andersen → Andersen
  | [], s => s
  | inst :: rest, s =>
    if inst.getType.isPointerTy then
      registerValueNodes rest { s with nodeFactory := (s.nodeFactory.createValueNode inst.value).1 }
    else registerValueNodes rest s

/-- The second inner loop: the constraints of each instruction, in order; a halt
ends the run. -/
def translateInstructions (addConstraintForCall : CallDelegate) :
    List Instruction → Andersen → Outcome
  | [], s => .done s
  | inst :: rest, s =>
    match collectConstraintsForInstruction addConstraintForCall inst s with
    | .done s' => translateInstructions addConstraintForCall rest s'
    | .abort e s' => .abort e s'

/-- The loop `for (auto const &f : M)`. -/
def collectFunctions (addConstraintForCall : CallDelegate) : List Function → Andersen → Outcome
  | [], s => .done s
  | f :: fs, s =>
    if f.isDeclaration || f.isIntrinsic then collectFunctions addConstraintForCall fs s
    else
      match translateInstructions addConstraintForCall f.instructions
          (registerValueNodes f.instructions s) with
      | .done s' => collectFunctions addConstraintForCall fs s'
      | .abort e s' => .abort e s'

/-- The function `Andersen::collectConstraints`. -/
def collectConstraints (addConstraintForCall : CallDelegate) (M : Module) (s : Andersen) :
    Outcome :=
  collectFunctions addConstraintForCall M.functions (bootstrap s)

/-- Modelled from the spec: the per-program node with identity `n` in the node
factory, if there is one. -/
def AndersNodeFactory.getNode (nf : AndersNodeFactory) (n : NodeIndex) : Option AndersNode :=
  if n < AndersNodeFactory.numReserved then none
  else nf.nodes[n - AndersNodeFactory.numReserved]?

/-- The outcome `o` of a call started in `s` has the node factory of `s` and the
constraint list of `s` followed by constraints other than ADDR_OF. -/
def OutcomeKeepsNodes (s : Andersen) (o : Outcome) : Prop :=
  o.state.nodeFactory = s.nodeFactory ∧
    ∃ cs, o.state.constraints = s.constraints ++ cs ∧ ∀ c ∈ cs, c.type ≠ .ADDR_OF

/-! ## Contracts of the call-site delegate -/

/-- The delegate appends to the constraint list: whatever it is called on, the list
before the call is an initial segment of the list after it. -/
def DelegateAppends (d : CallDelegate) : Prop :=
  ∀ inst s, inst.opcode = .Call ∨ inst.opcode = .Invoke →
    s.constraints <+: (d inst s).state.constraints

/-- A step from `s` to `s'` that stays clear of the entity `v`: nodes are only added,
constraints are only appended, and every ADDR_OF constraint appended has as
destination a node that exists and is not the value node of `v`. -/
def StepAvoids (v : Value) (s s' : Andersen) : Prop :=
  s.nodeFactory.nodes <+: s'.nodeFactory.nodes ∧
    ∃ cs, s'.constraints = s.constraints ++ cs ∧
      ∀ c ∈ cs, c.type = .ADDR_OF →
        c.dest < AndersNodeFactory.numReserved + s'.nodeFactory.nodes.length ∧
          s'.nodeFactory.getValueNodeFor v ≠ some c.dest

/-- A delegate for the examples: the result of a call may point anywhere, so the
universal pointer is copied into the value node of the call, when it has one. -/
def sampleDelegate : CallDelegate := fun inst s =>
  match s.nodeFactory.getValueNodeFor inst.value with
  | some n => .done (s.emplace_back .COPY n AndersNodeFactory.getUniversalPtrNode)
  | none => .done s

/-- The type `i8*`. -/
def i8p : Ty := .Pointer (.Integer 8)

/-- The type `i32*`. -/
def i32p : Ty := .Pointer (.Integer 32)

/-- The type `i32**`. -/
def i32pp : Ty := .Pointer (.Pointer (.Integer 32))

/-- The function `@f` of the examples. -/
def fnF : Value := ⟨.Function, 100, .Pointer (.Aggregate 0)⟩

/-- The first argument `%x` of `@f`, an `i8*`. -/
def argX : Value := ⟨.Argument, 101, i8p⟩

/-- The instruction `%c = bitcast i8* %x to i32*` in `@f`. -/
def bitcastInst : Instruction := ⟨1, i32p, .BitCast, [argX], fnF⟩

/-- The instruction `%r = call i8* @g()` in `@f`. -/
def callInst : Instruction :=
  ⟨2, i8p, .Call, [⟨.Function, 200, .Pointer (.Aggregate 1)⟩], fnF⟩

/-- The state before collection starts, with nothing registered. -/
def emptyState : Andersen := ⟨⟨[]⟩, [], []⟩

/-- A state in which `%x` and the result of the bitcast have value nodes 4 and 5 and
`@f` has the return node 6. -/
def stateF : Andersen :=
  ⟨⟨[⟨.VALUE_NODE, argX⟩, ⟨.VALUE_NODE, bitcastInst.value⟩, ⟨.RETURN_NODE, fnF⟩]⟩, [], []⟩

/-- A module whose only function `@f` consists of the call `%r = call i8* @g()`. -/
def moduleCall : Module := ⟨[⟨fnF, false, false, [callInst]⟩]⟩

/-- The function `@scenario` of the worked example. -/
def fnS : Value := ⟨.Function, 300, .Pointer (.Aggregate 2)⟩

/-- The instruction `%a = alloca i32*`. -/
def instA : Instruction :=
  ⟨11, i32pp, .Alloca, [⟨.ConstantData, 1, .Integer 32⟩], fnS⟩

/-- The instruction `store i32* null, i32** %a`. -/
def instStore : Instruction :=
  ⟨12, .Void, .Store, [⟨.ConstantPointerNull, 0, i32p⟩, instA.value], fnS⟩

/-- The instruction `%b = load i32** %a`. -/
def instB : Instruction := ⟨13, i32p, .Load, [instA.value], fnS⟩

/-- The instruction `ret i32* %b`. -/
def instRet : Instruction := ⟨14, .Void, .Ret, [instB.value], fnS⟩

/-- The module of the worked example: one defined function with the body
`%a = alloca i32*; store i32* null, i32** %a; %b = load i32** %a; ret i32* %b`. -/
def moduleScenario : Module := ⟨[⟨fnS, false, false, [instA, instStore, instB, instRet]⟩]⟩

/-- The state the example starts from: the return node of the function exists (it
has identity 4), nothing else does. -/
def stateS : Andersen := ⟨⟨[⟨.RETURN_NODE, fnS⟩]⟩, [], []⟩

/-- A state of the worked example after registration: the return node of the
function is 4, the value nodes of `%a` and `%b` are 5 and 6. -/
def stateRegistered : Andersen :=
  ⟨⟨[⟨.RETURN_NODE, fnS⟩, ⟨.VALUE_NODE, instA.value⟩, ⟨.VALUE_NODE, instB.value⟩]⟩, [], []⟩

/-- The instruction `%g = getelementptr i32** %a, i32 0`, of type `i32**`, with a
value node of its own in `stateGep`. -/
def instGep : Instruction :=
  ⟨15, i32pp, .GetElementPtr, [instA.value, ⟨.ConstantData, 0, .Integer 32⟩], fnS⟩

/-- The instruction `%p = phi i32* [ %b, %bb1 ], [ null, %bb2 ]`. -/
def instPhi : Instruction :=
  ⟨16, i32p, .PHI, [instB.value, ⟨.ConstantPointerNull, 0, i32p⟩], fnS⟩

/-- The state `stateRegistered` with value nodes 7 and 8 for `%g` and `%p` as well. -/
def stateMore : Andersen :=
  ⟨⟨[⟨.RETURN_NODE, fnS⟩, ⟨.VALUE_NODE, instA.value⟩, ⟨.VALUE_NODE, instB.value⟩,
      ⟨.VALUE_NODE, instGep.value⟩, ⟨.VALUE_NODE, instPhi.value⟩]⟩, [], []⟩

/-- The instruction `%t = add i32 1, 2`. -/
def instAdd : Instruction :=
  ⟨17, .Integer 32, .Add,
    [⟨.ConstantData, 1, .Integer 32⟩, ⟨.ConstantData, 2, .Integer 32⟩], fnS⟩

/-- The instruction `%q = addrspacecast i32** %a to i32* addrspace(1)*`. -/
def instAddrSpaceCast : Instruction :=
  ⟨18, .Pointer i32p, .AddrSpaceCast, [instA.value], fnS⟩

/-- The instruction `ret void`. -/
def instRetVoid : Instruction := ⟨19, .Void, .Ret, [], fnS⟩

/-- The instruction `%q = addrspacecast i8* %x to i8 addrspace(1)*`. -/
def instCastX : Instruction := ⟨20, .Pointer (.Integer 8), .AddrSpaceCast, [argX], fnS⟩

/-- The instruction `%a2 = alloca i8` in `@f`. -/
def instA2 : Instruction := ⟨3, i8p, .Alloca, [⟨.ConstantData, 1, .Integer 32⟩], fnF⟩

/-- A module with two defined functions and two allocations: the function of the
worked example, and `@f` with `%a2 = alloca i8; %r = call i8* @g()`. -/
def moduleTwo : Module :=
  ⟨[⟨fnS, false, false, [instA, instStore, instB, instRet]⟩,
    ⟨fnF, false, false, [instA2, callInst]⟩]⟩

/-- The module `M` without the functions `collectConstraints` skips (declarations and
intrinsics). -/
def Module.withoutSkipped (M : Module) : Module :=
  ⟨M.functions.filter (fun f => !(f.isDeclaration || f.isIntrinsic))⟩

/-- The global `@x`, an `i32*`. -/
def globalX : Value := ⟨.GlobalVariable, 400, i32p⟩

/-- The instruction `%n = load i32* @x`, of type `i32`. -/
def instLoadInt : Instruction := ⟨21, .Integer 32, .Load, [globalX], fnS⟩

/-- The instruction `store i32 1, i32* @x`. -/
def instStoreInt : Instruction :=
  ⟨22, .Void, .Store, [⟨.ConstantData, 1, .Integer 32⟩, globalX], fnS⟩

/-- The instruction `%lp = landingpad i8* personality ... cleanup`, of pointer type. -/
def instLandingPad : Instruction := ⟨23, i8p, .LandingPad, [], fnS⟩

/-- The instruction `resume { i8*, i32 } %e` (of type `void`). -/
def instResume : Instruction := ⟨24, .Void, .Resume, [⟨.Instruction, 25, .Aggregate 3⟩], fnS⟩

/-- The declaration `declare i8* @g()`, with no body. -/
def fnGDecl : Function := ⟨⟨.Function, 200, .Pointer (.Aggregate 1)⟩, true, false, []⟩

/-- The module `moduleTwo` with the declaration of `@g` between its two functions. -/
def moduleWithDecl : Module :=
  ⟨[⟨fnS, false, false, [instA, instStore, instB, instRet]⟩, fnGDecl,
    ⟨fnF, false, false, [instA2, callInst]⟩]⟩

/-- The delegate only adds nodes: after a call that ends normally, the nodes of the
node factory before the call are an initial segment of those after it. -/
def DelegateExtendsNodes (d : CallDelegate) : Prop :=
  ∀ inst s s', inst.opcode = .Call ∨ inst.opcode = .Invoke → d inst s = .done s' →
    s.nodeFactory.nodes <+: s'.nodeFactory.nodes

/-- A function whose PHI comes before the instruction it takes as incoming value:
`%p = phi i32* [ %b, %bb1 ], [ null, %bb2 ]` then `%b = load i32** %a`. -/
def fnPhiFirst : Function := ⟨fnS, false, false, [instPhi, instB]⟩

/-- The rules of well-formed IR that the claims lean on (class invariants of the LLVM
instruction classes and checks of the IR verifier): an alloca has pointer type; ret,
store and resume have type `void`; a load has one operand, a pointer; a store has two
operands, the second a pointer; a getelementptr has a base operand, a pointer when
the result is one; a PHI has at least one incoming value and its incoming values
have its type. -/
def Instruction.wellFormed (inst : Instruction) : Bool :=
  match inst.opcode with
  | .Alloca => inst.type.isPointerTy
  | .Ret => decide (inst.type = .Void)
  | .Resume => decide (inst.type = .Void)
  | .Store =>
    decide (inst.type = .Void) &&
      (match inst.operands with
        | [_, p] => p.type.isPointerTy
        | _ => false)
  | .Load =>
    match inst.operands with
    | [p] => p.type.isPointerTy
    | _ => false
  | .GetElementPtr =>
    match inst.operands with
    | p :: _ => !inst.type.isPointerTy || p.type.isPointerTy
    | [] => false
  | .PHI => !inst.operands.isEmpty && inst.operands.all (fun v => decide (v.type = inst.type))
  | _ => true

/-- A PHI without incoming values, `%e = phi i32*`: not well-formed IR. -/
def instPhiEmpty : Instruction := ⟨26, i32p, .PHI, [], fnS⟩

/-- What the translation of one instruction appends to the constraint list, in the
state `s`: the list it ends with, less the entries that were there. -/
def appendedBy (d : CallDelegate) (inst : Instruction) (s : Andersen) : List AndersConstraint :=
  (collectConstraintsForInstruction d inst s).state.constraints.drop s.constraints.length

/-- The concatenation, over the instructions in order, of what the translation of
each appends, each in the state in which the translation pass reaches it; it stops
where the pass halts. -/
def appendedByInstructions (d : CallDelegate) : List Instruction → Andersen → List AndersConstraint
  | [], _ => []
  | inst :: rest, s =>
    appendedBy d inst s ++
      match collectConstraintsForInstruction d inst s with
      | .done s' => appendedByInstructions d rest s'
      | .abort _ _ => []

/-- The concatenation, over the functions that are not skipped, in module order, of
what the translation of their instructions appends; it stops where the run halts. -/
def appendedByFunctions (d : CallDelegate) : List Function → Andersen → List AndersConstraint
  | [], _ => []
  | f :: fs, s =>
    if f.isDeclaration || f.isIntrinsic then appendedByFunctions d fs s
    else
      appendedByInstructions d f.instructions (registerValueNodes f.instructions s) ++
        match translateInstructions d f.instructions (registerValueNodes f.instructions s) with
        | .done s' => appendedByFunctions d fs s'
        | .abort _ _ => []

/-- The value `%v`, an `i32*` argument of the function of the worked example. -/
def argV : Value := ⟨.Argument, 301, i32p⟩

/-- The instruction `store i32* %v, i32** %a`. -/
def instStoreV : Instruction := ⟨27, .Void, .Store, [argV, instA.value], fnS⟩

/-- A module whose function is
`%a = alloca i32*; store i32* %v, i32** %a; %b = load i32** %a; ret i32* %b`. -/
def moduleStoreLoad : Module := ⟨[⟨fnS, false, false, [instA, instStoreV, instB, instRet]⟩]⟩

/-- A start state for `moduleStoreLoad`: the return node of the function is 4 and the
value node of the argument `%v` is 5. -/
def stateArg : Andersen := ⟨⟨[⟨.RETURN_NODE, fnS⟩, ⟨.VALUE_NODE, argV⟩]⟩, [], []⟩

/-- The state in which the run over `moduleStoreLoad` from `stateArg` ends. -/
def stateStoreLoadFinal : Andersen :=
  (collectConstraints sampleDelegate moduleStoreLoad stateArg).state

theorem lookupFrom_append (k : AndersNodeType) (v : Value) (xs ys : List AndersNode) (i : Nat) :
    lookupFrom k v (xs ++ ys) i =
      match lookupFrom k v xs i with
      | some n => some n
      | none => lookupFrom k v ys (i + xs.length) := by
  induction xs generalizing i with
  | nil => simp [lookupFrom]
  | cons x xs ih =>
    have e : i + 1 + xs.length = i + (xs.length + 1) := by omega
    by_cases h : x.type = k ∧ x.value = v
    · simp [lookupFrom, h]
    · simp [lookupFrom, h, ih, e]

theorem lookupFrom_append_of_some {k : AndersNodeType} {v : Value} {xs : List AndersNode}
    {i n : Nat} (h : lookupFrom k v xs i = some n) (ys : List AndersNode) :
    lookupFrom k v (xs ++ ys) i = some n := by
  rw [lookupFrom_append, h]

theorem lookupFrom_append_single (k : AndersNodeType) (v : Value) (xs : List AndersNode)
    (y : AndersNode) (i : Nat) (h : ¬ (y.type = k ∧ y.value = v)) :
    lookupFrom k v (xs ++ [y]) i = lookupFrom k v xs i := by
  rw [lookupFrom_append]
  cases lookupFrom k v xs i <;> simp [lookupFrom, h]

theorem lookupFrom_append_self {k : AndersNodeType} {v : Value} {xs : List AndersNode}
    {i : Nat} (h : lookupFrom k v xs i = none) :
    lookupFrom k v (xs ++ [⟨k, v⟩]) i = some (i + xs.length) := by
  rw [lookupFrom_append, h]
  simp [lookupFrom]

theorem createValueNode_getValueNodeFor_self (nf : AndersNodeFactory) (v : Value) :
    (nf.createValueNode v).1.getValueNodeFor v = some (nf.createValueNode v).2 := by
  unfold AndersNodeFactory.createValueNode
  split
  next n h => exact h
  next h =>
    unfold AndersNodeFactory.getValueNodeFor at h ⊢
    split at h
    · cases h
    · rename_i hk
      simp only [hk, if_false]
      exact lookupFrom_append_self h

theorem createValueNode_getValueNodeFor_mono (nf : AndersNodeFactory) (v w : Value) (n : NodeIndex)
    (h : nf.getValueNodeFor w = some n) : (nf.createValueNode v).1.getValueNodeFor w = some n := by
  unfold AndersNodeFactory.createValueNode
  split
  · exact h
  · unfold AndersNodeFactory.getValueNodeFor at h ⊢
    split
    · rename_i hk
      simpa [hk] using h
    · rename_i hk
      simp only [hk, if_false] at h
      exact lookupFrom_append_of_some h _

theorem createValueNode_getObjectNodeFor (nf : AndersNodeFactory) (v w : Value) :
    (nf.createValueNode v).1.getObjectNodeFor w = nf.getObjectNodeFor w := by
  unfold AndersNodeFactory.createValueNode
  split
  · rfl
  · exact lookupFrom_append_single _ _ _ _ _ (by simp)

theorem createValueNode_getReturnNodeFor (nf : AndersNodeFactory) (v w : Value) :
    (nf.createValueNode v).1.getReturnNodeFor w = nf.getReturnNodeFor w := by
  unfold AndersNodeFactory.createValueNode
  split
  · rfl
  · exact lookupFrom_append_single _ _ _ _ _ (by simp)

theorem createObjectNode_getValueNodeFor (nf : AndersNodeFactory) (v w : Value) :
    (nf.createObjectNode v).1.getValueNodeFor w = nf.getValueNodeFor w := by
  unfold AndersNodeFactory.createObjectNode AndersNodeFactory.getValueNodeFor
  split
  · rfl
  · exact lookupFrom_append_single _ _ _ _ _ (by simp)

theorem createObjectNode_getReturnNodeFor (nf : AndersNodeFactory) (v w : Value) :
    (nf.createObjectNode v).1.getReturnNodeFor w = nf.getReturnNodeFor w :=
  lookupFrom_append_single _ _ _ _ _ (by simp)

theorem createObjectNode_getObjectNodeFor_self (nf : AndersNodeFactory) (v : Value)
    (h : nf.getObjectNodeFor v = none) :
    (nf.createObjectNode v).1.getObjectNodeFor v = some (nf.createObjectNode v).2 :=
  lookupFrom_append_self h

theorem emplace_back_constraints (s : Andersen) (t : ConstraintType) (a b : NodeIndex) :
    (s.emplace_back t a b).constraints = s.constraints ++ [⟨t, a, b⟩] := rfl

theorem emplace_back_nodeFactory (s : Andersen) (t : ConstraintType) (a b : NodeIndex) :
    (s.emplace_back t a b).nodeFactory = s.nodeFactory := rfl

theorem log_constraints (s : Andersen) (d : Diagnostic) : (s.log d).constraints = s.constraints :=
  rfl

theorem defaultCase_constraints (inst : Instruction) (s : Andersen) :
    (defaultCase inst s).state.constraints = s.constraints := by
  unfold defaultCase
  split <;> rfl

theorem notImplementedCase_constraints (inst : Instruction) (s : Andersen) :
    (notImplementedCase inst s).state.constraints = s.constraints := by
  unfold notImplementedCase
  rw [defaultCase_constraints]
  rfl

theorem phiLoop_appends (dst : NodeIndex) (vs : List Value) (s : Andersen) :
    s.constraints <+: (phiLoop dst vs s).state.constraints := by
  induction vs generalizing s with
  | nil => exact List.prefix_refl _
  | cons v vs ih =>
    unfold phiLoop
    split
    · exact List.prefix_refl _
    · exact (List.prefix_append _ _).trans (ih (s.emplace_back _ _ _))

theorem collectConstraintsForInstruction_appends (d : CallDelegate) (hd : DelegateAppends d)
    (inst : Instruction) (s : Andersen) :
    s.constraints <+: (collectConstraintsForInstruction d inst s).state.constraints := by
  unfold collectConstraintsForInstruction
  split
  case h_2 h => exact hd inst s (Or.inl h)
  case h_3 h => exact hd inst s (Or.inr h)
  all_goals
    repeat' split
    all_goals
      first
        | exact List.prefix_refl _
        | exact List.prefix_append _ _
        | exact phiLoop_appends _ _ _
        | exact (defaultCase_constraints _ _).symm ▸ List.prefix_refl _

theorem registerValueNodes_constraints (insts : List Instruction) (s : Andersen) :
    (registerValueNodes insts s).constraints = s.constraints := by
  induction insts generalizing s with
  | nil => rfl
  | cons inst rest ih =>
    unfold registerValueNodes
    split
    · rw [ih]
    · exact ih s

theorem translateInstructions_appends (d : CallDelegate) (hd : DelegateAppends d)
    (insts : List Instruction) (s : Andersen) :
    s.constraints <+: (translateInstructions d insts s).state.constraints := by
  induction insts generalizing s with
  | nil => exact List.prefix_refl _
  | cons inst rest ih =>
    have h := collectConstraintsForInstruction_appends d hd inst s
    unfold translateInstructions
    split
    next s' heq =>
      rw [heq] at h
      exact h.trans (ih s')
    next e s' heq =>
      rw [heq] at h
      exact h

theorem collectFunctions_appends (d : CallDelegate) (hd : DelegateAppends d)
    (fs : List Function) (s : Andersen) :
    s.constraints <+: (collectFunctions d fs s).state.constraints := by
  induction fs generalizing s with
  | nil => exact List.prefix_refl _
  | cons f fs ih =>
    unfold collectFunctions
    split
    · exact ih s
    · have h := translateInstructions_appends d hd f.instructions
        (registerValueNodes f.instructions s)
      rw [registerValueNodes_constraints] at h
      split
      next s' heq =>
        rw [heq] at h
        exact h.trans (ih s')
      next e s' heq =>
        rw [heq] at h
        exact h

theorem sampleDelegate_appends : DelegateAppends sampleDelegate := by
  intro inst s _
  unfold sampleDelegate
  split
  · exact List.prefix_append _ _
  · exact List.prefix_refl _

theorem alloca_step (d : CallDelegate) (inst : Instruction) (s : Andersen) (va : NodeIndex)
    (hop : inst.opcode = .Alloca) (hv : s.nodeFactory.getValueNodeFor inst.value = some va) :
    collectConstraintsForInstruction d inst s =
      .done
        { nodeFactory := (s.nodeFactory.createObjectNode inst.value).1
          constraints := s.constraints ++
            [⟨.ADDR_OF, va, (s.nodeFactory.createObjectNode inst.value).2⟩]
          errs := s.errs } := by
  simp [collectConstraintsForInstruction, hop, hv, Andersen.emplace_back]

theorem store_step (d : CallDelegate) (inst : Instruction) (s : Andersen) (v0 v1 : Value)
    (n0 n1 : NodeIndex) (hop : inst.opcode = .Store)
    (h0 : inst.getOperand 0 = some v0) (h1 : inst.getOperand 1 = some v1)
    (hp : v0.type.isPointerTy = true)
    (hn0 : s.nodeFactory.getValueNodeFor v0 = some n0)
    (hn1 : s.nodeFactory.getValueNodeFor v1 = some n1) :
    collectConstraintsForInstruction d inst s =
      .done { s with constraints := s.constraints ++ [⟨.STORE, n1, n0⟩] } := by
  simp [collectConstraintsForInstruction, hop, h0, h1, hp, hn0, hn1, Andersen.emplace_back]

theorem load_step (d : CallDelegate) (inst : Instruction) (s : Andersen) (v0 : Value)
    (n0 n : NodeIndex) (hop : inst.opcode = .Load)
    (hp : inst.getType.isPointerTy = true) (h0 : inst.getOperand 0 = some v0)
    (hn0 : s.nodeFactory.getValueNodeFor v0 = some n0)
    (hn : s.nodeFactory.getValueNodeFor inst.value = some n) :
    collectConstraintsForInstruction d inst s =
      .done { s with constraints := s.constraints ++ [⟨.LOAD, n, n0⟩] } := by
  simp [collectConstraintsForInstruction, hop, h0, hp, hn0, hn, Andersen.emplace_back]

theorem ret_step (d : CallDelegate) (inst : Instruction) (s : Andersen) (v0 : Value)
    (r n0 : NodeIndex) (hop : inst.opcode = .Ret)
    (h0 : inst.getOperand 0 = some v0) (hp : v0.type.isPointerTy = true)
    (hr : s.nodeFactory.getReturnNodeFor inst.parent = some r)
    (hn0 : s.nodeFactory.getValueNodeFor v0 = some n0) :
    collectConstraintsForInstruction d inst s =
      .done { s with constraints := s.constraints ++ [⟨.COPY, r, n0⟩] } := by
  simp [collectConstraintsForInstruction, hop, h0, hp, hr, hn0, Andersen.emplace_back]

theorem ret_skip (d : CallDelegate) (inst : Instruction) (s : Andersen)
    (hop : inst.opcode = .Ret)
    (h : inst.getNumOperands = 0 ∨
      ∃ v0, inst.getOperand 0 = some v0 ∧ v0.type.isPointerTy = false) :
    collectConstraintsForInstruction d inst s = .done s := by
  rcases h with h | ⟨v0, h0, hp⟩
  · have : inst.getOperand 0 = none := by
      unfold Instruction.getNumOperands at h
      simp [Instruction.getOperand, List.length_eq_zero.mp h]
    simp [collectConstraintsForInstruction, hop, this]
  · simp [collectConstraintsForInstruction, hop, h0, hp]

theorem gep_step (d : CallDelegate) (inst : Instruction) (s : Andersen) (v0 : Value)
    (n0 n : NodeIndex) (hop : inst.opcode = .GetElementPtr)
    (hp : inst.getType.isPointerTy = true) (h0 : inst.getOperand 0 = some v0)
    (hn0 : s.nodeFactory.getValueNodeFor v0 = some n0)
    (hn : s.nodeFactory.getValueNodeFor inst.value = some n) :
    collectConstraintsForInstruction d inst s =
      .done { s with constraints := s.constraints ++ [⟨.COPY, n, n0⟩] } := by
  simp [collectConstraintsForInstruction, hop, h0, hp, hn0, hn, Andersen.emplace_back]

theorem phiLoop_done (dst : NodeIndex) (vs : List Value) (ns : List NodeIndex) (s : Andersen)
    (h : vs.map s.nodeFactory.getValueNodeFor = ns.map some) :
    phiLoop dst vs s =
      .done { s with constraints := s.constraints ++ ns.map (fun n => ⟨.COPY, dst, n⟩) } := by
  induction vs generalizing ns s with
  | nil =>
    cases ns with
    | nil => simp [phiLoop]
    | cons n ns => simp at h
  | cons v vs ih =>
    cases ns with
    | nil => simp at h
    | cons n ns =>
      simp only [List.map_cons, List.cons.injEq] at h
      unfold phiLoop
      rw [h.1]
      simp only
      rw [ih ns (s.emplace_back .COPY dst n) h.2]
      simp [Andersen.emplace_back]

theorem phi_step (d : CallDelegate) (inst : Instruction) (s : Andersen) (dst : NodeIndex)
    (ns : List NodeIndex) (hop : inst.opcode = .PHI) (hp : inst.getType.isPointerTy = true)
    (hdst : s.nodeFactory.getValueNodeFor inst.value = some dst)
    (hsrc : inst.operands.map s.nodeFactory.getValueNodeFor = ns.map some) :
    collectConstraintsForInstruction d inst s =
      .done { s with constraints := s.constraints ++ ns.map (fun n => ⟨.COPY, dst, n⟩) } := by
  simp [collectConstraintsForInstruction, hop, hp, hdst, phiLoop_done dst _ ns s hsrc]

theorem default_step (d : CallDelegate) (inst : Instruction) (s : Andersen)
    (hop : inst.opcode ∉ [Opcode.Alloca, .Call, .Invoke, .Ret, .Load, .Store, .GetElementPtr,
      .PHI, .BitCast, .IntToPtr, .Select, .VAArg, .ExtractValue, .InsertValue, .LandingPad,
      .Resume, .AtomicRMW, .AtomicCmpXchg]) :
    collectConstraintsForInstruction d inst s = defaultCase inst s := by
  cases h : inst.opcode <;> simp [h] at hop <;> simp [collectConstraintsForInstruction, h]

theorem value_type (inst : Instruction) : inst.value.type = inst.type := rfl

theorem getValueNodeFor_null (nf : AndersNodeFactory) (v : Value)
    (h : v.kind = .ConstantPointerNull) :
    nf.getValueNodeFor v = some AndersNodeFactory.getNullPtrNode := by
  simp [AndersNodeFactory.getValueNodeFor, h]

theorem phiLoop_footprint (dst : NodeIndex) (vs : List Value) (s : Andersen) :
    (phiLoop dst vs s).state.nodeFactory = s.nodeFactory ∧
      (phiLoop dst vs s).state.errs = s.errs ∧
      ∃ cs, (phiLoop dst vs s).state.constraints = s.constraints ++ cs ∧
        ∀ c ∈ cs, c.type = .COPY := by
  induction vs generalizing s with
  | nil => exact ⟨rfl, rfl, [], by simp [phiLoop, Outcome.state], by simp⟩
  | cons v vs ih =>
    unfold phiLoop
    split
    · exact ⟨rfl, rfl, [], by simp [Outcome.state], by simp⟩
    · rename_i n _
      obtain ⟨h1, h2, cs, h3, h4⟩ := ih (s.emplace_back .COPY dst n)
      refine ⟨h1, h2, ⟨.COPY, dst, n⟩ :: cs, ?_, ?_⟩
      · rw [h3]
        simp [Andersen.emplace_back]
      · intro c hc
        rcases List.mem_cons.mp hc with rfl | hc
        · rfl
        · exact h4 c hc

theorem outcome_keepsNodes_done (s : Andersen) : OutcomeKeepsNodes s (.done s) :=
  ⟨rfl, [], by simp [Outcome.state], by simp⟩

theorem outcome_keepsNodes_abort (e : InternalError) (s : Andersen) :
    OutcomeKeepsNodes s (.abort e s) :=
  ⟨rfl, [], by simp [Outcome.state], by simp⟩

theorem outcome_keepsNodes_emplace (s : Andersen) (t : ConstraintType) (a b : NodeIndex)
    (ht : t ≠ .ADDR_OF) : OutcomeKeepsNodes s (.done (s.emplace_back t a b)) := by
  refine ⟨rfl, [⟨t, a, b⟩], rfl, ?_⟩
  intro c hc
  rw [List.mem_singleton.mp hc]
  exact ht

theorem outcome_keepsNodes_default (inst : Instruction) (s : Andersen) :
    OutcomeKeepsNodes s (defaultCase inst s) := by
  unfold defaultCase
  split
  · exact ⟨rfl, [], by simp [Outcome.state, Andersen.log], by simp⟩
  · exact outcome_keepsNodes_done s

theorem outcome_keepsNodes_notImplemented (inst : Instruction) (s : Andersen) :
    OutcomeKeepsNodes s (notImplementedCase inst s) := by
  unfold notImplementedCase defaultCase
  split
  · exact ⟨rfl, [], by simp [Outcome.state, Andersen.log], by simp⟩
  · exact ⟨rfl, [], by simp [Outcome.state, Andersen.log], by simp⟩

theorem outcome_keepsNodes_phiLoop (dst : NodeIndex) (vs : List Value) (s : Andersen) :
    OutcomeKeepsNodes s (phiLoop dst vs s) := by
  obtain ⟨h1, _, cs, h3, h4⟩ := phiLoop_footprint dst vs s
  exact ⟨h1, cs, h3, fun c hc h => by rw [h4 c hc] at h; cases h⟩

/-- Apart from alloca, call and invoke, an instruction leaves the node factory as it
is and appends only COPY, LOAD and STORE constraints, also when the call halts. -/
theorem step_footprint (d : CallDelegate) (inst : Instruction) (s : Andersen)
    (ha : inst.opcode ≠ .Alloca) (hc : inst.opcode ≠ .Call) (hi : inst.opcode ≠ .Invoke) :
    OutcomeKeepsNodes s (collectConstraintsForInstruction d inst s) := by
  unfold collectConstraintsForInstruction
  split
  case h_1 h => exact absurd h ha
  case h_2 h => exact absurd h hc
  case h_3 h => exact absurd h hi
  all_goals
    repeat' split
    all_goals
      first
        | exact outcome_keepsNodes_done s
        | exact outcome_keepsNodes_abort _ s
        | exact outcome_keepsNodes_emplace s _ _ _ (by decide)
        | exact outcome_keepsNodes_phiLoop _ _ s
        | exact outcome_keepsNodes_notImplemented inst s
        | exact outcome_keepsNodes_default inst s

theorem getValueNodeFor_stable {nf nf' : AndersNodeFactory} (h : nf.nodes <+: nf'.nodes)
    {v : Value} {n : NodeIndex} (hv : nf.getValueNodeFor v = some n) :
    nf'.getValueNodeFor v = some n := by
  obtain ⟨t, ht⟩ := h
  unfold AndersNodeFactory.getValueNodeFor at hv ⊢
  split
  · rename_i hk
    simpa [hk] using hv
  · rename_i hk
    simp only [hk, if_false] at hv
    rw [← ht]
    exact lookupFrom_append_of_some hv t

theorem avoids_of_keepsNodes {v : Value} {s s' : Andersen}
    (h : OutcomeKeepsNodes s (.done s')) : StepAvoids v s s' := by
  obtain ⟨hnf, cs, hcs, hty⟩ := h
  simp only [Outcome.state] at hnf hcs
  refine ⟨by rw [hnf], cs, hcs, fun c hc ht => absurd ht (hty c hc)⟩

theorem alloca_done {d : CallDelegate} {inst : Instruction} {s s' : Andersen}
    (hop : inst.opcode = .Alloca) (h : collectConstraintsForInstruction d inst s = .done s') :
    ∃ va, s.nodeFactory.getValueNodeFor inst.value = some va ∧
      s' = { nodeFactory := (s.nodeFactory.createObjectNode inst.value).1
             constraints := s.constraints ++
               [⟨.ADDR_OF, va, (s.nodeFactory.createObjectNode inst.value).2⟩]
             errs := s.errs } := by
  cases hv : s.nodeFactory.getValueNodeFor inst.value with
  | none => simp [collectConstraintsForInstruction, hop, hv] at h
  | some va =>
    rw [alloca_step d inst s va hop hv] at h
    exact ⟨va, rfl, (Outcome.done.inj h).symm⟩

theorem createValueNode_nodes (nf : AndersNodeFactory) (v : Value) :
    nf.nodes <+: (nf.createValueNode v).1.nodes := by
  unfold AndersNodeFactory.createValueNode
  split
  · exact List.prefix_refl _
  · exact List.prefix_append _ _

theorem registerValueNodes_nodes (insts : List Instruction) (s : Andersen) :
    s.nodeFactory.nodes <+: (registerValueNodes insts s).nodeFactory.nodes := by
  induction insts generalizing s with
  | nil => exact List.prefix_refl _
  | cons inst rest ih =>
    unfold registerValueNodes
    split
    · exact (createValueNode_nodes s.nodeFactory inst.value).trans
        (ih { s with nodeFactory := (s.nodeFactory.createValueNode inst.value).1 })
    · exact ih s

theorem collectFunctions_filter (d : CallDelegate) (fs : List Function) (s : Andersen) :
    collectFunctions d fs s =
      collectFunctions d (fs.filter (fun f => !(f.isDeclaration || f.isIntrinsic))) s := by
  induction fs generalizing s with
  | nil => rfl
  | cons f fs ih =>
    by_cases hskip : (f.isDeclaration || f.isIntrinsic) = true
    · have e : (f :: fs).filter (fun f => !(f.isDeclaration || f.isIntrinsic)) =
          fs.filter (fun f => !(f.isDeclaration || f.isIntrinsic)) := by
        simp [List.filter, hskip]
      rw [e, ← ih]
      simp [collectFunctions, hskip]
    · have e : (f :: fs).filter (fun f => !(f.isDeclaration || f.isIntrinsic)) =
          f :: fs.filter (fun f => !(f.isDeclaration || f.isIntrinsic)) := by
        simp [List.filter, hskip]
      rw [e]
      simp only [collectFunctions, hskip, if_false]
      cases translateInstructions d f.instructions (registerValueNodes f.instructions s) with
      | done s' => exact ih s'
      | abort e' s' => rfl

theorem registerValueNodes_registers (insts : List Instruction) (s : Andersen)
    (inst : Instruction) (hin : inst ∈ insts) (hp : inst.getType.isPointerTy = true) :
    ∃ n, (registerValueNodes insts s).nodeFactory.getValueNodeFor inst.value = some n := by
  induction insts generalizing s with
  | nil => cases hin
  | cons i rest ih =>
    rcases List.mem_cons.mp hin with rfl | hin
    · unfold registerValueNodes
      rw [if_pos hp]
      exact ⟨_, getValueNodeFor_stable (registerValueNodes_nodes rest _)
        (createValueNode_getValueNodeFor_self s.nodeFactory inst.value)⟩
    · unfold registerValueNodes
      split
      · exact ih _ hin
      · exact ih _ hin

theorem instruction_nodes {d : CallDelegate} (hn : DelegateExtendsNodes d)
    {inst : Instruction} {s s' : Andersen}
    (h : collectConstraintsForInstruction d inst s = .done s') :
    s.nodeFactory.nodes <+: s'.nodeFactory.nodes := by
  by_cases ha : inst.opcode = .Alloca
  · obtain ⟨va, _, rfl⟩ := alloca_done ha h
    exact List.prefix_append _ _
  · by_cases hc : inst.opcode = .Call
    · refine hn inst s s' (Or.inl hc) ?_
      simpa [collectConstraintsForInstruction, hc] using h
    · by_cases hi : inst.opcode = .Invoke
      · refine hn inst s s' (Or.inr hi) ?_
        simpa [collectConstraintsForInstruction, hi] using h
      · have hk := (step_footprint d inst s ha hc hi).1
        rw [h] at hk
        simp only [Outcome.state] at hk
        rw [hk]

theorem translate_nodes {d : CallDelegate} (hn : DelegateExtendsNodes d)
    (insts : List Instruction) {s s' : Andersen}
    (h : translateInstructions d insts s = .done s') :
    s.nodeFactory.nodes <+: s'.nodeFactory.nodes := by
  induction insts generalizing s with
  | nil =>
    simp only [translateInstructions, Outcome.done.injEq] at h
    subst h
    exact List.prefix_refl _
  | cons inst rest ih =>
    unfold translateInstructions at h
    split at h
    next s1 heq => exact (instruction_nodes hn heq).trans (ih h)
    next => cases h

theorem phiLoop_done_inv (dst : NodeIndex) (vs : List Value) (s s' : Andersen)
    (h : phiLoop dst vs s = .done s') :
    ∃ ns : List NodeIndex, ns.length = vs.length ∧
      vs.map s.nodeFactory.getValueNodeFor = ns.map some ∧
      s' = { s with constraints := s.constraints ++ ns.map (fun n => ⟨.COPY, dst, n⟩) } := by
  induction vs generalizing s with
  | nil =>
    simp only [phiLoop, Outcome.done.injEq] at h
    subst h
    exact ⟨[], rfl, rfl, by simp⟩
  | cons v vs ih =>
    unfold phiLoop at h
    split at h
    · cases h
    · rename_i n hn
      obtain ⟨ns, hlen, hmap, hs'⟩ := ih (s.emplace_back .COPY dst n) h
      refine ⟨n :: ns, by simp [hlen], ?_, ?_⟩
      · simp only [List.map_cons, hn]
        rw [← hmap]
        rfl
      · rw [hs']
        simp [Andersen.emplace_back]

theorem wellFormed_void_of_ret_store {inst : Instruction} (hwf : inst.wellFormed = true)
    (h : inst.opcode = .Ret ∨ inst.opcode = .Store) : inst.type = .Void := by
  rcases h with h | h
  · simpa [Instruction.wellFormed, h] using hwf
  · have := hwf
    simp only [Instruction.wellFormed, h, Bool.and_eq_true, decide_eq_true_eq] at this
    exact this.1

theorem wellFormed_load {inst : Instruction} (hwf : inst.wellFormed = true)
    (h : inst.opcode = .Load) :
    ∃ p, inst.operands = [p] ∧ p.type.isPointerTy = true := by
  simp only [Instruction.wellFormed, h] at hwf
  split at hwf
  · exact ⟨_, ‹_›, hwf⟩
  · cases hwf

theorem wellFormed_gep {inst : Instruction} (hwf : inst.wellFormed = true)
    (h : inst.opcode = .GetElementPtr) :
    ∃ p rest, inst.operands = p :: rest ∧
      (inst.type.isPointerTy = true → p.type.isPointerTy = true) := by
  simp only [Instruction.wellFormed, h] at hwf
  split at hwf
  · refine ⟨_, _, ‹_›, fun hp => ?_⟩
    simpa [hp] using hwf
  · cases hwf

theorem wellFormed_phi {inst : Instruction} (hwf : inst.wellFormed = true)
    (h : inst.opcode = .PHI) :
    inst.operands ≠ [] ∧ ∀ v ∈ inst.operands, v.type = inst.type := by
  simp only [Instruction.wellFormed, h, Bool.and_eq_true, Bool.not_eq_true',
    List.isEmpty_eq_false, List.all_eq_true, decide_eq_true_eq] at hwf
  exact ⟨by
    intro he
    rw [he] at hwf
    simp at hwf, hwf.2⟩

theorem pointer_inst_core (d : CallDelegate) (inst : Instruction) (s : Andersen)
    (hwf : inst.wellFormed = true) (hp : inst.getType.isPointerTy = true)
    (hc : inst.opcode ≠ .Call) (hi : inst.opcode ≠ .Invoke) :
    (∃ cs, (collectConstraintsForInstruction d inst s).state.constraints = s.constraints ++ cs ∧
        cs ≠ [] ∧ ∀ c ∈ cs, s.nodeFactory.getValueNodeFor inst.value = some c.dest) ∨
      (collectConstraintsForInstruction d inst s).state.errs ≠ s.errs ∨
      (collectConstraintsForInstruction d inst s).isDone = false := by
  have hvoid : inst.type ≠ .Void := by
    intro h
    simp [Instruction.getType, h, Ty.isPointerTy] at hp
  cases hop : inst.opcode
  case Call => exact absurd hop hc
  case Invoke => exact absurd hop hi
  case Ret => exact absurd (wellFormed_void_of_ret_store hwf (Or.inl hop)) hvoid
  case Store => exact absurd (wellFormed_void_of_ret_store hwf (Or.inr hop)) hvoid
  case Alloca =>
    cases hv : s.nodeFactory.getValueNodeFor inst.value with
    | none =>
      right; right
      simp [collectConstraintsForInstruction, hop, hv, Outcome.isDone]
    | some va =>
      left
      rw [alloca_step d inst s va hop hv]
      exact ⟨[_], rfl, by simp, by simp⟩
  case Load =>
    obtain ⟨p, hops, _⟩ := wellFormed_load hwf hop
    have h0 : inst.getOperand 0 = some p := by simp [Instruction.getOperand, hops]
    cases hn0 : s.nodeFactory.getValueNodeFor p with
    | none =>
      right; right
      simp [collectConstraintsForInstruction, hop, hp, h0, hn0, Outcome.isDone]
    | some n0 =>
      cases hn : s.nodeFactory.getValueNodeFor inst.value with
      | none =>
        right; right
        simp [collectConstraintsForInstruction, hop, hp, h0, hn0, hn, Outcome.isDone]
      | some n =>
        left
        rw [load_step d inst s p n0 n hop hp h0 hn0 hn]
        exact ⟨[_], rfl, by simp, by simp⟩
  case GetElementPtr =>
    obtain ⟨p, rest, hops, _⟩ := wellFormed_gep hwf hop
    have h0 : inst.getOperand 0 = some p := by simp [Instruction.getOperand, hops]
    cases hn0 : s.nodeFactory.getValueNodeFor p with
    | none =>
      right; right
      simp [collectConstraintsForInstruction, hop, hp, h0, hn0, Outcome.isDone]
    | some n0 =>
      cases hn : s.nodeFactory.getValueNodeFor inst.value with
      | none =>
        right; right
        simp [collectConstraintsForInstruction, hop, hp, h0, hn0, hn, Outcome.isDone]
      | some n =>
        left
        rw [gep_step d inst s p n0 n hop hp h0 hn0 hn]
        exact ⟨[_], rfl, by simp, by simp⟩
  case PHI =>
    obtain ⟨hne, _⟩ := wellFormed_phi hwf hop
    cases hdst : s.nodeFactory.getValueNodeFor inst.value with
    | none =>
      right; right
      simp [collectConstraintsForInstruction, hop, hp, hdst, Outcome.isDone]
    | some dst =>
      have e : collectConstraintsForInstruction d inst s = phiLoop dst inst.operands s := by
        simp [collectConstraintsForInstruction, hop, hp, hdst]
      rw [e]
      cases hl : phiLoop dst inst.operands s with
      | abort e' s' =>
        right; right
        rfl
      | done s' =>
        left
        obtain ⟨ns, hlen, _, rfl⟩ := phiLoop_done_inv dst inst.operands s s' hl
        refine ⟨ns.map (fun n => ⟨.COPY, dst, n⟩), rfl, ?_, ?_⟩
        · intro hnil
          have hz : ns = [] := by simpa using hnil
          rw [hz] at hlen
          exact hne (List.length_eq_zero.mp hlen.symm)
        · intro c hc'
          obtain ⟨n, _, rfl⟩ := List.mem_map.mp hc'
          rfl
  all_goals
    right; right
    simp [collectConstraintsForInstruction, hop, defaultCase, notImplementedCase, hp,
      Outcome.isDone]

theorem empty_phi_unchanged (d : CallDelegate) (s : Andersen) (dst : NodeIndex)
    (h : s.nodeFactory.getValueNodeFor instPhiEmpty.value = some dst) :
    instPhiEmpty.wellFormed = false ∧
      collectConstraintsForInstruction d instPhiEmpty s = .done s := by
  refine ⟨rfl, ?_⟩
  have hop : instPhiEmpty.opcode = .PHI := rfl
  have hp : instPhiEmpty.getType.isPointerTy = true := rfl
  have hops : instPhiEmpty.operands = [] := rfl
  simp [collectConstraintsForInstruction, hop, hp, h, hops, phiLoop]

theorem appendedBy_spec (d : CallDelegate) (hd : DelegateAppends d) (inst : Instruction)
    (s : Andersen) :
    (collectConstraintsForInstruction d inst s).state.constraints =
      s.constraints ++ appendedBy d inst s := by
  obtain ⟨t, ht⟩ := collectConstraintsForInstruction_appends d hd inst s
  unfold appendedBy
  rw [← ht]
  simp

theorem translate_appended (d : CallDelegate) (hd : DelegateAppends d)
    (insts : List Instruction) (s : Andersen) :
    (translateInstructions d insts s).state.constraints =
      s.constraints ++ appendedByInstructions d insts s := by
  induction insts generalizing s with
  | nil => simp [translateInstructions, appendedByInstructions, Outcome.state]
  | cons inst rest ih =>
    have h := appendedBy_spec d hd inst s
    unfold translateInstructions appendedByInstructions
    cases hc : collectConstraintsForInstruction d inst s with
    | done s' =>
      rw [hc] at h
      simp only [Outcome.state] at h
      simp only
      rw [ih s', h, List.append_assoc]
    | abort e s' =>
      rw [hc] at h
      simp only [Outcome.state] at h
      simp only [Outcome.state, List.append_nil]
      exact h

theorem functions_appended (d : CallDelegate) (hd : DelegateAppends d)
    (fs : List Function) (s : Andersen) :
    (collectFunctions d fs s).state.constraints =
      s.constraints ++ appendedByFunctions d fs s := by
  induction fs generalizing s with
  | nil => simp [collectFunctions, appendedByFunctions, Outcome.state]
  | cons f fs ih =>
    unfold collectFunctions appendedByFunctions
    split
    · exact ih s
    · have h := translate_appended d hd f.instructions (registerValueNodes f.instructions s)
      rw [registerValueNodes_constraints] at h
      cases hc : translateInstructions d f.instructions
          (registerValueNodes f.instructions s) with
      | done s' =>
        rw [hc] at h
        simp only [Outcome.state] at h
        simp only
        rw [ih s', h, List.append_assoc]
      | abort e s' =>
        rw [hc] at h
        simp only [Outcome.state] at h
        simp only [Outcome.state, List.append_nil]
        exact h

theorem translate_append_done {d : CallDelegate} (pre rest : List Instruction)
    {s s' : Andersen} (h : translateInstructions d (pre ++ rest) s = .done s') :
    ∃ s1, translateInstructions d pre s = .done s1 ∧
      translateInstructions d rest s1 = .done s' := by
  induction pre generalizing s with
  | nil => exact ⟨s, rfl, h⟩
  | cons inst pre ih =>
    simp only [List.cons_append] at h
    unfold translateInstructions at h
    split at h
    next s1 heq =>
      obtain ⟨s2, h1, h2⟩ := ih h
      refine ⟨s2, ?_, h2⟩
      unfold translateInstructions
      rw [heq]
      exact h1
    next => cases h

theorem translate_cons_done {d : CallDelegate} {inst : Instruction} {rest : List Instruction}
    {s s' : Andersen} (h : translateInstructions d (inst :: rest) s = .done s') :
    ∃ s1, collectConstraintsForInstruction d inst s = .done s1 ∧
      translateInstructions d rest s1 = .done s' := by
  unfold translateInstructions at h
  split at h
  next s1 heq => exact ⟨s1, heq, h⟩
  next => cases h

theorem store_done_inv {d : CallDelegate} {inst : Instruction} {s s' : Andersen} {v p : Value}
    (hop : inst.opcode = .Store) (hops : inst.operands = [v, p])
    (hp : v.type.isPointerTy = true)
    (h : collectConstraintsForInstruction d inst s = .done s') :
    ∃ nv np, s.nodeFactory.getValueNodeFor v = some nv ∧
      s.nodeFactory.getValueNodeFor p = some np ∧
      s' = { s with constraints := s.constraints ++ [⟨.STORE, np, nv⟩] } := by
  have h0 : inst.getOperand 0 = some v := by simp [Instruction.getOperand, hops]
  have h1 : inst.getOperand 1 = some p := by simp [Instruction.getOperand, hops]
  cases hnv : s.nodeFactory.getValueNodeFor v with
  | none => simp [collectConstraintsForInstruction, hop, h0, hp, hnv] at h
  | some nv =>
    cases hnp : s.nodeFactory.getValueNodeFor p with
    | none => simp [collectConstraintsForInstruction, hop, h0, h1, hp, hnv, hnp] at h
    | some np =>
      rw [store_step d inst s v p nv np hop h0 h1 hp hnv hnp] at h
      exact ⟨nv, np, rfl, rfl, (Outcome.done.inj h).symm⟩

theorem load_done_inv {d : CallDelegate} {inst : Instruction} {s s' : Andersen} {p : Value}
    (hop : inst.opcode = .Load) (hops : inst.operands = [p])
    (hp : inst.getType.isPointerTy = true)
    (h : collectConstraintsForInstruction d inst s = .done s') :
    ∃ np nr, s.nodeFactory.getValueNodeFor p = some np ∧
      s.nodeFactory.getValueNodeFor inst.value = some nr ∧
      s' = { s with constraints := s.constraints ++ [⟨.LOAD, nr, np⟩] } := by
  have h0 : inst.getOperand 0 = some p := by simp [Instruction.getOperand, hops]
  cases hnp : s.nodeFactory.getValueNodeFor p with
  | none => simp [collectConstraintsForInstruction, hop, h0, hp, hnp] at h
  | some np =>
    cases hnr : s.nodeFactory.getValueNodeFor inst.value with
    | none => simp [collectConstraintsForInstruction, hop, h0, hp, hnp, hnr] at h
    | some nr =>
      rw [load_step d inst s p np nr hop hp h0 hnp hnr] at h
      exact ⟨np, nr, rfl, rfl, (Outcome.done.inj h).symm⟩

theorem functions_nodes {d : CallDelegate} (hn : DelegateExtendsNodes d)
    (fs : List Function) {s s' : Andersen} (h : collectFunctions d fs s = .done s') :
    s.nodeFactory.nodes <+: s'.nodeFactory.nodes := by
  induction fs generalizing s with
  | nil =>
    simp only [collectFunctions, Outcome.done.injEq] at h
    subst h
    exact List.prefix_refl _
  | cons f fs ih =>
    unfold collectFunctions at h
    split at h
    · exact ih h
    · split at h
      next s1 heq =>
        exact ((registerValueNodes_nodes f.instructions s).trans
          (translate_nodes hn f.instructions heq)).trans (ih h)
      next => cases h

theorem functions_find {d : CallDelegate} (hd : DelegateAppends d)
    (hn : DelegateExtendsNodes d) (fs : List Function) (f : Function) (hf : f ∈ fs)
    (hskip : (f.isDeclaration || f.isIntrinsic) = false) {s s' : Andersen}
    (h : collectFunctions d fs s = .done s') :
    ∃ s0 s1, translateInstructions d f.instructions (registerValueNodes f.instructions s0)
        = .done s1 ∧
      s1.constraints <+: s'.constraints ∧ s1.nodeFactory.nodes <+: s'.nodeFactory.nodes := by
  induction fs generalizing s with
  | nil => cases hf
  | cons g fs ih =>
    unfold collectFunctions at h
    split at h
    next hg =>
      rcases List.mem_cons.mp hf with rfl | hf
      · rw [hskip] at hg
        cases hg
      · exact ih hf h
    next hg =>
      split at h
      next s1 heq =>
        rcases List.mem_cons.mp hf with rfl | hf
        · refine ⟨s, s1, heq, ?_, functions_nodes hn fs h⟩
          have := collectFunctions_appends d hd fs s1
          rw [h] at this
          exact this
        · exact ih hf h
      next => cases h

theorem getElem_append_pair (xs t : List AndersConstraint) (x y : AndersConstraint) :
    (xs ++ x :: y :: t)[xs.length]? = some x ∧ (xs ++ x :: y :: t)[xs.length + 1]? = some y := by
  induction xs with
  | nil => simp
  | cons a xs ih => simpa using ih

theorem store_load_adjacent {d : CallDelegate} (hd : DelegateAppends d)
    (hn : DelegateExtendsNodes d) (fs : List Function) (f : Function) (hf : f ∈ fs)
    (hskip : (f.isDeclaration || f.isIntrinsic) = false)
    (pre post : List Instruction) (st ld : Instruction) (v p : Value)
    (hinsts : f.instructions = pre ++ st :: ld :: post)
    (hst : st.opcode = .Store) (hstops : st.operands = [v, p])
    (hv : v.type.isPointerTy = true)
    (hld : ld.opcode = .Load) (hldops : ld.operands = [p])
    (hr : ld.getType.isPointerTy = true) {s s' : Andersen}
    (h : collectFunctions d fs s = .done s') :
    ∃ (nv np nr : NodeIndex) (i : Nat),
      s'.nodeFactory.getValueNodeFor v = some nv ∧
      s'.nodeFactory.getValueNodeFor p = some np ∧
      s'.nodeFactory.getValueNodeFor ld.value = some nr ∧
      s'.constraints[i]? = some ⟨.STORE, np, nv⟩ ∧
      s'.constraints[i + 1]? = some ⟨.LOAD, nr, np⟩ := by
  obtain ⟨s0, s1, hrun, hcs, hns⟩ := functions_find hd hn fs f hf hskip h
  rw [hinsts] at hrun
  obtain ⟨sa, _, hrest⟩ := translate_append_done pre _ hrun
  obtain ⟨sb, hstep1, hrest⟩ := translate_cons_done hrest
  obtain ⟨sc, hstep2, hrest⟩ := translate_cons_done hrest
  obtain ⟨nv, np, hnv, hnp, rfl⟩ := store_done_inv hst hstops hv hstep1
  obtain ⟨np', nr, hnp', hnr, rfl⟩ := load_done_inv hld hldops hr hstep2
  simp only at hnp' hnr
  rw [hnp] at hnp'
  cases hnp'
  have hnodes : sa.nodeFactory.nodes <+: s'.nodeFactory.nodes :=
    (translate_nodes hn post hrest).trans hns
  have hpost := translateInstructions_appends d hd post
    { sa with constraints := sa.constraints ++ [⟨.STORE, np, nv⟩] ++ [⟨.LOAD, nr, np⟩] }
  have hrest' : translateInstructions d post
      { sa with constraints := sa.constraints ++ [⟨.STORE, np, nv⟩] ++ [⟨.LOAD, nr, np⟩] }
      = .done s1 := hrest
  rw [hrest'] at hpost
  obtain ⟨t, ht⟩ := hpost.trans hcs
  refine ⟨nv, np, nr, sa.constraints.length, getValueNodeFor_stable hnodes hnv,
    getValueNodeFor_stable hnodes hnp, getValueNodeFor_stable hnodes hnr, ?_, ?_⟩
  · rw [← ht]
    simpa using (getElem_append_pair sa.constraints t _ _).1
  · rw [← ht]
    simpa using (getElem_append_pair sa.constraints t _ _).2

theorem sampleDelegate_extendsNodes : DelegateExtendsNodes sampleDelegate := by
  intro inst s s' _ h
  unfold sampleDelegate at h
  split at h <;> cases h <;> exact List.prefix_refl _

theorem scenario_run (d : CallDelegate) (s : Andersen) (r : NodeIndex)
    (iA iSt iB iRet : Instruction) (fn nul : Value)
    (hA : iA.opcode = .Alloca) (hSt : iSt.opcode = .Store) (hB : iB.opcode = .Load)
    (hRet : iRet.opcode = .Ret)
    (hStOps : iSt.operands = [nul, iA.value]) (hBOps : iB.operands = [iA.value])
    (hRetOps : iRet.operands = [iB.value]) (hRetPar : iRet.parent = fn)
    (hpa : iA.type.isPointerTy = true) (hpb : iB.type.isPointerTy = true)
    (hst : iSt.type.isPointerTy = false) (hrt : iRet.type.isPointerTy = false)
    (hnk : nul.kind = .ConstantPointerNull) (hnp : nul.type.isPointerTy = true)
    (hr : s.nodeFactory.getReturnNodeFor fn = some r) :
    ∃ (s' : Andersen) (va vb oa : NodeIndex),
      collectConstraints d ⟨[⟨fn, false, false, [iA, iSt, iB, iRet]⟩]⟩ s = .done s' ∧
      s'.nodeFactory.getValueNodeFor iA.value = some va ∧
      s'.nodeFactory.getValueNodeFor iB.value = some vb ∧
      s'.nodeFactory.getNode oa = some ⟨.OBJ_NODE, iA.value⟩ ∧
      s.nodeFactory.getNode oa = none ∧
      s'.nodeFactory.getReturnNodeFor fn = some r ∧
      s'.constraints = s.constraints ++
        (bootstrapConstraints ++
          [⟨.ADDR_OF, va, oa⟩, ⟨.STORE, va, AndersNodeFactory.getNullPtrNode⟩,
            ⟨.LOAD, vb, va⟩, ⟨.COPY, r, vb⟩]) := by
  have hva := createValueNode_getValueNodeFor_mono (s.nodeFactory.createValueNode iA.value).1
    iB.value iA.value _ (createValueNode_getValueNodeFor_self s.nodeFactory iA.value)
  have hvb := createValueNode_getValueNodeFor_self (s.nodeFactory.createValueNode iA.value).1
    iB.value
  have hr2 : ((s.nodeFactory.createValueNode iA.value).1.createValueNode
      iB.value).1.getReturnNodeFor fn = some r := by
    rw [createValueNode_getReturnNodeFor, createValueNode_getReturnNodeFor, hr]
  have hlen : s.nodeFactory.nodes.length ≤
      ((s.nodeFactory.createValueNode iA.value).1.createValueNode iB.value).1.nodes.length :=
    ((createValueNode_nodes s.nodeFactory iA.value).trans
      (createValueNode_nodes _ iB.value)).length_le
  refine ⟨⟨(((s.nodeFactory.createValueNode iA.value).1.createValueNode
        iB.value).1.createObjectNode iA.value).1,
      s.constraints ++ (bootstrapConstraints ++
        [⟨.ADDR_OF, (s.nodeFactory.createValueNode iA.value).2,
            (((s.nodeFactory.createValueNode iA.value).1.createValueNode
              iB.value).1.createObjectNode iA.value).2⟩,
          ⟨.STORE, (s.nodeFactory.createValueNode iA.value).2, AndersNodeFactory.getNullPtrNode⟩,
          ⟨.LOAD, ((s.nodeFactory.createValueNode iA.value).1.createValueNode iB.value).2,
            (s.nodeFactory.createValueNode iA.value).2⟩,
          ⟨.COPY, r, ((s.nodeFactory.createValueNode iA.value).1.createValueNode iB.value).2⟩]),
      s.errs⟩,
    (s.nodeFactory.createValueNode iA.value).2,
    ((s.nodeFactory.createValueNode iA.value).1.createValueNode iB.value).2,
    (((s.nodeFactory.createValueNode iA.value).1.createValueNode
      iB.value).1.createObjectNode iA.value).2,
    ?_, ?_, ?_, ?_, ?_, ?_, rfl⟩
  · simp [collectConstraints, collectFunctions, registerValueNodes, translateInstructions,
      collectConstraintsForInstruction, Instruction.getType, Instruction.getOperand, bootstrap,
      Andersen.emplace_back, hA, hSt, hB, hRet, hStOps, hBOps, hRetOps, hRetPar,
      hpa, hpb, hst, hrt, hnp, createObjectNode_getValueNodeFor,
      createObjectNode_getReturnNodeFor, hva, hvb, hr2, getValueNodeFor_null _ nul hnk,
      bootstrapConstraints, value_type]
  · simp only [createObjectNode_getValueNodeFor, hva]
  · simp only [createObjectNode_getValueNodeFor, hvb]
  · simp [AndersNodeFactory.getNode, AndersNodeFactory.createObjectNode]
  · simp only [AndersNodeFactory.getNode, AndersNodeFactory.createObjectNode]
    split
    · rfl
    · exact List.getElem?_eq_none (by omega)
  · simp only [createObjectNode_getReturnNodeFor, hr2]

theorem alloca_frame (d : CallDelegate) (inst : Instruction) (s : Andersen) (va : NodeIndex)
    (hop : inst.opcode = .Alloca) (hva : s.nodeFactory.getValueNodeFor inst.value = some va) :
    ∃ s', collectConstraintsForInstruction d inst s = .done s' ∧
      s'.nodeFactory.nodes = s.nodeFactory.nodes ++ [⟨.OBJ_NODE, inst.value⟩] ∧
      (∀ v, s'.nodeFactory.getValueNodeFor v = s.nodeFactory.getValueNodeFor v) ∧
      (∀ f, s'.nodeFactory.getReturnNodeFor f = s.nodeFactory.getReturnNodeFor f) :=
  ⟨_, alloca_step d inst s va hop hva, rfl,
    fun v => createObjectNode_getValueNodeFor s.nodeFactory inst.value v,
    fun f => createObjectNode_getReturnNodeFor s.nodeFactory inst.value f⟩

/-! ## The claims -/

/-- C1 (what the code does; the claim fails on it): for an instruction whose opcode is
BitCast, IntToPtr, Select, VAArg, ExtractValue or InsertValue and whose static type
is a pointer type, `collectConstraintsForInstruction` writes the instruction and
"not implemented yet" to the diagnostic stream, then runs on into the `default:`
block, writes the instruction again and halts with the
"pointer-related inst not handled!" error. The constraint list and the node factory
are as before. -/
theorem unimplemented_pointer_inst_halts (d : CallDelegate) (inst : Instruction) (s : Andersen)
    (hop : inst.opcode = .BitCast ∨ inst.opcode = .IntToPtr ∨ inst.opcode = .Select ∨
      inst.opcode = .VAArg ∨ inst.opcode = .ExtractValue ∨ inst.opcode = .InsertValue)
    (hty : inst.getType.isPointerTy = true) :
    collectConstraintsForInstruction d inst s =
      .abort .pointerRelatedInstNotHandled
        { s with errs := s.errs ++ [.printInst inst, .notImplementedYet, .printInst inst] } := by
  rcases hop with h | h | h | h | h | h <;>
    simp [collectConstraintsForInstruction, h, hty, notImplementedCase, defaultCase,
      Andersen.log]

/-- C1, at `%c = bitcast i8* %x to i32*` in a state where `%x` and `%c` have value
nodes: the call halts with the internal error. -/
theorem unimplemented_pointer_inst_halts_witness :
    collectConstraintsForInstruction sampleDelegate bitcastInst stateF =
      .abort .pointerRelatedInstNotHandled
        { stateF with errs := stateF.errs ++
            [.printInst bitcastInst, .notImplementedYet, .printInst bitcastInst] } :=
  unimplemented_pointer_inst_halts sampleDelegate bitcastInst stateF
    (Or.inl rfl) rfl

/-- C2: with a call-site delegate that appends, and started on an empty constraint
list, `collectConstraints` ends (normally or halted) with a list whose first three
entries are ADDR_OF(universal-ptr, universal-obj), STORE(universal-obj,
universal-obj), ADDR_OF(null-ptr, null-obj), in that order; and the loop over the
functions of the module starts from a state whose list is exactly these three and
whose node factory is untouched. -/
theorem collectConstraints_bootstrap_first (d : CallDelegate) (hd : DelegateAppends d)
    (M : Module) (s : Andersen) (hs : s.constraints = []) :
    (collectConstraints d M s).state.constraints.take 3 =
        [⟨.ADDR_OF, AndersNodeFactory.getUniversalPtrNode,
            AndersNodeFactory.getUniversalObjNode⟩,
         ⟨.STORE, AndersNodeFactory.getUniversalObjNode,
            AndersNodeFactory.getUniversalObjNode⟩,
         ⟨.ADDR_OF, AndersNodeFactory.getNullPtrNode,
            AndersNodeFactory.getNullObjectNode⟩] ∧
      ∃ s0 : Andersen,
        s0.constraints =
          [⟨.ADDR_OF, AndersNodeFactory.getUniversalPtrNode,
              AndersNodeFactory.getUniversalObjNode⟩,
           ⟨.STORE, AndersNodeFactory.getUniversalObjNode,
              AndersNodeFactory.getUniversalObjNode⟩,
           ⟨.ADDR_OF, AndersNodeFactory.getNullPtrNode,
              AndersNodeFactory.getNullObjectNode⟩] ∧
        s0.nodeFactory = s.nodeFactory ∧ s0.errs = s.errs ∧
        collectConstraints d M s = collectFunctions d M.functions s0 := by
  have hb : (bootstrap s).constraints = bootstrapConstraints := by
    simp [bootstrap, Andersen.emplace_back, hs, bootstrapConstraints]
  constructor
  · have h := collectFunctions_appends d hd M.functions (bootstrap s)
    rw [hb] at h
    obtain ⟨t, ht⟩ := h
    unfold collectConstraints
    rw [← ht]
    rfl
  · exact ⟨bootstrap s, hb, rfl, rfl, rfl⟩

/-- C2, at the module with one call, the sample delegate and the empty state. -/
theorem collectConstraints_bootstrap_first_witness :
    (collectConstraints sampleDelegate moduleCall emptyState).state.constraints.take 3 =
        [⟨.ADDR_OF, 0, 1⟩, ⟨.STORE, 1, 1⟩, ⟨.ADDR_OF, 2, 3⟩] ∧
      (collectConstraints sampleDelegate moduleCall emptyState).state.constraints.length = 4 :=
  ⟨(collectConstraints_bootstrap_first sampleDelegate sampleDelegate_appends moduleCall
      emptyState rfl).1, by decide⟩

/-- C3 (as amended): for the module with the single defined function whose body is
`%a = alloca i32*; store i32* null, i32** %a; %b = load i32** %a; ret i32* %b`,
started in a state where the function has a return node `r`, `collectConstraints`
ends normally, and the constraint list is the start list, the three bootstrap
entries, and then exactly ADDR_OF(value(%a), obj(%a)), STORE(value(%a),
null-ptr-node), LOAD(value(%b), value(%a)), COPY(r, value(%b)), in this order:
value(%a) and value(%b) are the value nodes the final node factory gives, and
obj(%a) is an object node for `%a` that the run created. -/
theorem scenario_constraints (d : CallDelegate) (s : Andersen) (r : NodeIndex)
    (hr : s.nodeFactory.getReturnNodeFor fnS = some r) :
    ∃ (s' : Andersen) (va vb oa : NodeIndex),
      collectConstraints d moduleScenario s = .done s' ∧
      s'.nodeFactory.getValueNodeFor instA.value = some va ∧
      s'.nodeFactory.getValueNodeFor instB.value = some vb ∧
      s'.nodeFactory.getNode oa = some ⟨.OBJ_NODE, instA.value⟩ ∧
      s.nodeFactory.getNode oa = none ∧
      s'.nodeFactory.getReturnNodeFor fnS = some r ∧
      s'.constraints = s.constraints ++
        [⟨.ADDR_OF, AndersNodeFactory.getUniversalPtrNode,
            AndersNodeFactory.getUniversalObjNode⟩,
         ⟨.STORE, AndersNodeFactory.getUniversalObjNode,
            AndersNodeFactory.getUniversalObjNode⟩,
         ⟨.ADDR_OF, AndersNodeFactory.getNullPtrNode,
            AndersNodeFactory.getNullObjectNode⟩,
         ⟨.ADDR_OF, va, oa⟩,
         ⟨.STORE, va, AndersNodeFactory.getNullPtrNode⟩,
         ⟨.LOAD, vb, va⟩,
         ⟨.COPY, r, vb⟩] :=
  scenario_run d s r instA instStore instB instRet fnS ⟨.ConstantPointerNull, 0, i32p⟩
    rfl rfl rfl rfl rfl rfl rfl rfl rfl rfl rfl rfl rfl rfl hr

/-- C3 as amended, from the state in which only the return node of the function
exists (node 4): the run ends normally with value(%a) = 5, value(%b) = 6,
obj(%a) = 7. -/
theorem scenario_constraints_witness :
    (∃ (s' : Andersen) (va vb oa : NodeIndex),
      collectConstraints sampleDelegate moduleScenario stateS = .done s' ∧
      s'.nodeFactory.getValueNodeFor instA.value = some va ∧
      s'.nodeFactory.getValueNodeFor instB.value = some vb ∧
      s'.nodeFactory.getNode oa = some ⟨.OBJ_NODE, instA.value⟩ ∧
      stateS.nodeFactory.getNode oa = none ∧
      s'.nodeFactory.getReturnNodeFor fnS = some 4 ∧
      s'.constraints = stateS.constraints ++
        [⟨.ADDR_OF, 0, 1⟩, ⟨.STORE, 1, 1⟩, ⟨.ADDR_OF, 2, 3⟩, ⟨.ADDR_OF, va, oa⟩,
         ⟨.STORE, va, 2⟩, ⟨.LOAD, vb, va⟩, ⟨.COPY, 4, vb⟩]) ∧
    (collectConstraints sampleDelegate moduleScenario stateS).state.constraints =
        [⟨.ADDR_OF, 0, 1⟩, ⟨.STORE, 1, 1⟩, ⟨.ADDR_OF, 2, 3⟩, ⟨.ADDR_OF, 5, 7⟩,
         ⟨.STORE, 5, 2⟩, ⟨.LOAD, 6, 5⟩, ⟨.COPY, 4, 6⟩] :=
  ⟨scenario_constraints sampleDelegate stateS 4 (by decide), by decide⟩

/-- C3 as stated fails: started where the function has no return node (nothing in
`collectConstraints` creates one), the run over the same module translates the
alloca, the store and the load and then halts at `ret i32* %b` with "Failed to find
return node": it does not end without an internal error, and no COPY into a return
node is appended. -/
theorem scenario_constraints_counterexample :
    collectConstraints sampleDelegate moduleScenario emptyState =
      .abort .failedToFindReturnNode
        ⟨⟨[⟨.VALUE_NODE, instA.value⟩, ⟨.VALUE_NODE, instB.value⟩, ⟨.OBJ_NODE, instA.value⟩]⟩,
          [⟨.ADDR_OF, 0, 1⟩, ⟨.STORE, 1, 1⟩, ⟨.ADDR_OF, 2, 3⟩, ⟨.ADDR_OF, 4, 6⟩,
            ⟨.STORE, 4, 2⟩, ⟨.LOAD, 5, 4⟩], []⟩ := by
  decide

/-- C4: for a Store instruction whose stored value (operand 0) is pointer-typed and
whose two operands have value nodes `n0` (stored value) and `n1` (pointer operand),
`collectConstraintsForInstruction` ends normally having appended exactly one
constraint, STORE with destination `n1` and source `n0`; nothing else changes. -/
theorem store_pointer_constraint (d : CallDelegate) (inst : Instruction) (s : Andersen)
    (v0 v1 : Value) (n0 n1 : NodeIndex) (hop : inst.opcode = .Store)
    (h0 : inst.getOperand 0 = some v0) (h1 : inst.getOperand 1 = some v1)
    (hp : v0.type.isPointerTy = true)
    (hn0 : s.nodeFactory.getValueNodeFor v0 = some n0)
    (hn1 : s.nodeFactory.getValueNodeFor v1 = some n1) :
    collectConstraintsForInstruction d inst s =
      .done { s with constraints := s.constraints ++ [⟨.STORE, n1, n0⟩] } :=
  store_step d inst s v0 v1 n0 n1 hop h0 h1 hp hn0 hn1

/-- C4, at `store i32* null, i32** %a`: STORE(value(%a) = 5, null-ptr-node = 2). -/
theorem store_pointer_constraint_witness :
    collectConstraintsForInstruction sampleDelegate instStore stateRegistered =
      .done { stateRegistered with constraints := [⟨.STORE, 5, 2⟩] } :=
  store_pointer_constraint sampleDelegate instStore stateRegistered
    ⟨.ConstantPointerNull, 0, i32p⟩ instA.value 2 5 rfl rfl rfl rfl (by decide) (by decide)

/-- C5: for a Load instruction whose result is pointer-typed and whose pointer
operand and result have value nodes `n0` and `n`, `collectConstraintsForInstruction`
ends normally having appended exactly one constraint, LOAD with destination `n` (the
load) and source `n0` (its pointer operand); nothing else changes. -/
theorem load_pointer_constraint (d : CallDelegate) (inst : Instruction) (s : Andersen)
    (v0 : Value) (n0 n : NodeIndex) (hop : inst.opcode = .Load)
    (hp : inst.getType.isPointerTy = true) (h0 : inst.getOperand 0 = some v0)
    (hn0 : s.nodeFactory.getValueNodeFor v0 = some n0)
    (hn : s.nodeFactory.getValueNodeFor inst.value = some n) :
    collectConstraintsForInstruction d inst s =
      .done { s with constraints := s.constraints ++ [⟨.LOAD, n, n0⟩] } :=
  load_step d inst s v0 n0 n hop hp h0 hn0 hn

/-- C5, at `%b = load i32** %a`: LOAD(value(%b) = 6, value(%a) = 5). -/
theorem load_pointer_constraint_witness :
    collectConstraintsForInstruction sampleDelegate instB stateRegistered =
      .done { stateRegistered with constraints := [⟨.LOAD, 6, 5⟩] } :=
  load_pointer_constraint sampleDelegate instB stateRegistered instA.value 5 6 rfl rfl rfl
    (by decide) (by decide)

/-- C6: for a pointer-typed PHI instruction with value node `dst` whose incoming
values have the value nodes `ns` (one per incoming value, in order),
`collectConstraintsForInstruction` ends normally having appended exactly one
constraint per incoming value, the i-th being COPY(dst, i-th incoming node); so there
are as many as incoming values and all share the destination `dst`. -/
theorem phi_fan_in (d : CallDelegate) (inst : Instruction) (s : Andersen) (dst : NodeIndex)
    (ns : List NodeIndex) (hop : inst.opcode = .PHI) (hp : inst.getType.isPointerTy = true)
    (hdst : s.nodeFactory.getValueNodeFor inst.value = some dst)
    (hsrc : inst.operands.map s.nodeFactory.getValueNodeFor = ns.map some) :
    collectConstraintsForInstruction d inst s =
        .done { s with constraints := s.constraints ++ ns.map (fun n => ⟨.COPY, dst, n⟩) } ∧
      (ns.map (fun n => (⟨.COPY, dst, n⟩ : AndersConstraint))).length = inst.getNumOperands := by
  refine ⟨phi_step d inst s dst ns hop hp hdst hsrc, ?_⟩
  have h := congrArg List.length hsrc
  simpa [Instruction.getNumOperands] using h.symm

/-- C6, at `%p = phi i32* [ %b, %bb1 ], [ null, %bb2 ]`: COPY(8, 6) then COPY(8, 2). -/
theorem phi_fan_in_witness :
    collectConstraintsForInstruction sampleDelegate instPhi stateMore =
      .done { stateMore with constraints := [⟨.COPY, 8, 6⟩, ⟨.COPY, 8, 2⟩] } :=
  (phi_fan_in sampleDelegate instPhi stateMore 8 [6, 2] rfl rfl (by decide) (by decide)).1

/-- C7: for a Return instruction: if it has an operand, the operand is pointer-typed,
the enclosing function has the return node `r` and the operand the value node `n0`,
exactly one constraint COPY(r, n0) is appended; if it has no operand or its operand
is not pointer-typed, the call ends normally with the state unchanged, whatever the
node factory holds (the outcome does not depend on any lookup). -/
theorem ret_constraint (d : CallDelegate) (inst : Instruction) (s : Andersen)
    (hop : inst.opcode = .Ret) :
    (∀ (v0 : Value) (r n0 : NodeIndex), inst.getOperand 0 = some v0 →
        v0.type.isPointerTy = true →
        s.nodeFactory.getReturnNodeFor inst.parent = some r →
        s.nodeFactory.getValueNodeFor v0 = some n0 →
        collectConstraintsForInstruction d inst s =
          .done { s with constraints := s.constraints ++ [⟨.COPY, r, n0⟩] }) ∧
      ((inst.getNumOperands = 0 ∨
          ∃ v0, inst.getOperand 0 = some v0 ∧ v0.type.isPointerTy = false) →
        ∀ nf : AndersNodeFactory,
          collectConstraintsForInstruction d inst { s with nodeFactory := nf } =
            .done { s with nodeFactory := nf }) :=
  ⟨fun v0 r n0 h0 hp hr hn0 => ret_step d inst s v0 r n0 hop h0 hp hr hn0,
   fun h nf => ret_skip d inst { s with nodeFactory := nf } hop h⟩

/-- C7, at `ret i32* %b` (COPY(return node 4, value(%b) = 6)) and at `ret void`
(nothing appended, also with an empty node factory). -/
theorem ret_constraint_witness :
    collectConstraintsForInstruction sampleDelegate instRet stateRegistered =
        .done { stateRegistered with constraints := [⟨.COPY, 4, 6⟩] } ∧
      collectConstraintsForInstruction sampleDelegate instRetVoid emptyState =
        .done emptyState :=
  ⟨(ret_constraint sampleDelegate instRet stateRegistered rfl).1 instB.value 4 6 rfl rfl
      (by decide) (by decide),
   (ret_constraint sampleDelegate instRetVoid emptyState rfl).2 (Or.inl rfl) ⟨[]⟩⟩

/-- C8: for a GetElementPtr instruction whose result is pointer-typed, with base
operand (operand 0) `base` and any index operands, where base and result have the
value nodes `n0` and `n`, `collectConstraintsForInstruction` ends normally having
appended exactly one constraint, COPY(n, n0); the index operands play no part. -/
theorem gep_constraint (d : CallDelegate) (inst : Instruction) (s : Andersen)
    (base : Value) (indices : List Value) (n0 n : NodeIndex)
    (hop : inst.opcode = .GetElementPtr) (hp : inst.getType.isPointerTy = true)
    (hops : inst.operands = base :: indices)
    (hn0 : s.nodeFactory.getValueNodeFor base = some n0)
    (hn : s.nodeFactory.getValueNodeFor inst.value = some n) :
    collectConstraintsForInstruction d inst s =
      .done { s with constraints := s.constraints ++ [⟨.COPY, n, n0⟩] } :=
  gep_step d inst s base n0 n hop hp (by simp [Instruction.getOperand, hops]) hn0 hn

/-- C8, at `%g = getelementptr i32** %a, i32 0`: COPY(value(%g) = 7, value(%a) = 5). -/
theorem gep_constraint_witness :
    collectConstraintsForInstruction sampleDelegate instGep stateMore =
      .done { stateMore with constraints := [⟨.COPY, 7, 5⟩] } :=
  gep_constraint sampleDelegate instGep stateMore instA.value
    [⟨.ConstantData, 0, .Integer 32⟩] 5 7 rfl rfl rfl (by decide) (by decide)

/-- C10: for an instruction whose opcode has no `case` label of its own in the switch
(none of alloca, call, invoke, ret, load, store, getelementptr, phi, bitcast,
inttoptr, select, va_arg, extractvalue, insertvalue, landingpad, resume, atomicrmw,
cmpxchg), `collectConstraintsForInstruction` halts with an internal error if and only
if the static type of the instruction is a pointer type (the error then is
"pointer-related inst not handled!", after the instruction is printed); when the type
is not a pointer type it ends normally with the state unchanged: nothing appended,
nothing logged. -/
theorem unlisted_opcode (d : CallDelegate) (inst : Instruction) (s : Andersen)
    (hop : inst.opcode ∉ [Opcode.Alloca, .Call, .Invoke, .Ret, .Load, .Store, .GetElementPtr,
      .PHI, .BitCast, .IntToPtr, .Select, .VAArg, .ExtractValue, .InsertValue, .LandingPad,
      .Resume, .AtomicRMW, .AtomicCmpXchg]) :
    ((collectConstraintsForInstruction d inst s).isDone = false ↔
        inst.getType.isPointerTy = true) ∧
      (inst.getType.isPointerTy = true →
        collectConstraintsForInstruction d inst s =
          .abort .pointerRelatedInstNotHandled { s with errs := s.errs ++ [.printInst inst] }) ∧
      (inst.getType.isPointerTy = false →
        collectConstraintsForInstruction d inst s = .done s) := by
  rw [default_step d inst s hop]
  unfold defaultCase
  cases h : inst.getType.isPointerTy <;> simp [Outcome.isDone, Andersen.log]

/-- C10, at `%t = add i32 1, 2` (ends normally, state unchanged) and at
`%q = addrspacecast ...` of pointer type (halts). -/
theorem unlisted_opcode_witness :
    collectConstraintsForInstruction sampleDelegate instAdd stateRegistered =
        .done stateRegistered ∧
      (collectConstraintsForInstruction sampleDelegate instAddrSpaceCast stateRegistered).isDone
        = false :=
  ⟨(unlisted_opcode sampleDelegate instAdd stateRegistered (by decide)).2.2 rfl,
   (unlisted_opcode sampleDelegate instAddrSpaceCast stateRegistered (by decide)).1.mpr rfl⟩

/-- C14: a Load instruction whose result type is not a pointer type, and a Store
instruction whose stored value (operand 0) is not pointer-typed, end normally with
the state unchanged, whatever the node factory holds: nothing is appended and the
outcome depends on no lookup, so an unregistered operand cannot make it fail. -/
theorem nonpointer_load_store (d : CallDelegate) (inst : Instruction) (s : Andersen) :
    (inst.opcode = .Load → inst.getType.isPointerTy = false →
        ∀ nf : AndersNodeFactory,
          collectConstraintsForInstruction d inst { s with nodeFactory := nf } =
            .done { s with nodeFactory := nf }) ∧
      (inst.opcode = .Store →
        ∀ v0, inst.getOperand 0 = some v0 → v0.type.isPointerTy = false →
          ∀ nf : AndersNodeFactory,
            collectConstraintsForInstruction d inst { s with nodeFactory := nf } =
              .done { s with nodeFactory := nf }) := by
  constructor
  · intro hop hp nf
    simp [collectConstraintsForInstruction, hop, hp]
  · intro hop v0 h0 hp nf
    simp [collectConstraintsForInstruction, hop, h0, hp]

/-- C14, at `%n = load i32* @x` and `store i32 1, i32* @x`, with nothing registered
(`@x` has no value node). -/
theorem nonpointer_load_store_witness :
    collectConstraintsForInstruction sampleDelegate instLoadInt emptyState = .done emptyState ∧
      collectConstraintsForInstruction sampleDelegate instStoreInt emptyState =
        .done emptyState :=
  ⟨(nonpointer_load_store sampleDelegate instLoadInt emptyState).1 rfl rfl ⟨[]⟩,
   (nonpointer_load_store sampleDelegate instStoreInt emptyState).2 rfl
      ⟨.ConstantData, 1, .Integer 32⟩ rfl rfl ⟨[]⟩⟩

/-- C15: a function that is a declaration or an intrinsic is skipped: the run goes
straight on to the next function from the same state, and for every module the
outcome of `collectConstraints` (constraint list, node factory, diagnostics, and
whether it halts) is that of the module with all such functions removed. -/
theorem skipped_functions_no_effect (d : CallDelegate) (M : Module) (s : Andersen) :
    collectConstraints d M s = collectConstraints d M.withoutSkipped s ∧
      ∀ (f : Function) (fs : List Function), (f.isDeclaration || f.isIntrinsic) = true →
        collectFunctions d (f :: fs) s = collectFunctions d fs s := by
  constructor
  · exact collectFunctions_filter d M.functions (bootstrap s)
  · intro f fs hskip
    simp [collectFunctions, hskip]

/-- C15, at the module with the declaration of `@g` between two defined functions:
the outcome is that of the module without the declaration. -/
theorem skipped_functions_no_effect_witness :
    collectConstraints sampleDelegate moduleWithDecl stateS =
        collectConstraints sampleDelegate moduleTwo stateS ∧
      collectFunctions sampleDelegate [fnGDecl] stateS = collectFunctions sampleDelegate [] stateS :=
  ⟨(skipped_functions_no_effect sampleDelegate moduleWithDecl stateS).1,
   (skipped_functions_no_effect sampleDelegate moduleWithDecl stateS).2 fnGDecl [] rfl⟩

/-- C16: with a call-site delegate that appends, the constraint list is append-only:
for every instruction and every starting state the list before
`collectConstraintsForInstruction` is an initial segment of the list after it, also
when the call halts; and so the list before `collectConstraints` is an initial
segment of the list in which the run ends, normally or halted. -/
theorem constraints_append_only (d : CallDelegate) (hd : DelegateAppends d) :
    (∀ (inst : Instruction) (s : Andersen),
        s.constraints <+: (collectConstraintsForInstruction d inst s).state.constraints) ∧
      ∀ (M : Module) (s : Andersen),
        s.constraints <+: (collectConstraints d M s).state.constraints := by
  refine ⟨collectConstraintsForInstruction_appends d hd, fun M s => ?_⟩
  have h1 : s.constraints <+: (bootstrap s).constraints :=
    ((List.prefix_append _ _).trans (List.prefix_append _ _)).trans (List.prefix_append _ _)
  exact h1.trans (collectFunctions_appends d hd M.functions (bootstrap s))

/-- C16, with the sample delegate: at the halting bitcast and over the module with a
call, started from a list that already holds one constraint. -/
theorem constraints_append_only_witness :
    ([⟨.COPY, 4, 5⟩] : List AndersConstraint) <+:
        (collectConstraintsForInstruction sampleDelegate bitcastInst
          { stateF with constraints := [⟨.COPY, 4, 5⟩] }).state.constraints ∧
      ([⟨.COPY, 4, 5⟩] : List AndersConstraint) <+:
        (collectConstraints sampleDelegate moduleCall
          { stateF with constraints := [⟨.COPY, 4, 5⟩] }).state.constraints :=
  ⟨(constraints_append_only sampleDelegate sampleDelegate_appends).1 bitcastInst
      { stateF with constraints := [⟨.COPY, 4, 5⟩] },
   (constraints_append_only sampleDelegate sampleDelegate_appends).2 moduleCall
      { stateF with constraints := [⟨.COPY, 4, 5⟩] }⟩

/-- C17 (what the code does; the claim fails on it for a pointer type): a LandingPad,
Resume, AtomicRMW or AtomicCmpXchg instruction is written to the diagnostic stream,
followed by "not implemented yet", and the constraint list is left as it was. When
its static type is not a pointer type the call then ends normally. When it is a
pointer type, control runs on into the `default:` block, the instruction is written
again and the call halts with the "pointer-related inst not handled!" error. -/
theorem not_implemented_inst (d : CallDelegate) (inst : Instruction) (s : Andersen)
    (hop : inst.opcode = .LandingPad ∨ inst.opcode = .Resume ∨ inst.opcode = .AtomicRMW ∨
      inst.opcode = .AtomicCmpXchg) :
    (inst.getType.isPointerTy = false →
        collectConstraintsForInstruction d inst s =
          .done { s with errs := s.errs ++ [.printInst inst, .notImplementedYet] }) ∧
      (inst.getType.isPointerTy = true →
        collectConstraintsForInstruction d inst s =
          .abort .pointerRelatedInstNotHandled
            { s with errs := s.errs ++ [.printInst inst, .notImplementedYet, .printInst inst] }) := by
  constructor <;> intro hty <;> rcases hop with h | h | h | h <;>
    simp [collectConstraintsForInstruction, h, hty, notImplementedCase, defaultCase,
      Andersen.log]

/-- C17, at `resume` (logged, ends normally) and at a `landingpad` of type `i8*`
(logged, then halts). -/
theorem not_implemented_inst_witness :
    collectConstraintsForInstruction sampleDelegate instResume emptyState =
        .done { emptyState with errs := [.printInst instResume, .notImplementedYet] } ∧
      collectConstraintsForInstruction sampleDelegate instLandingPad emptyState =
        .abort .pointerRelatedInstNotHandled
          { emptyState with errs :=
              [.printInst instLandingPad, .notImplementedYet, .printInst instLandingPad] } :=
  ⟨(not_implemented_inst sampleDelegate instResume emptyState (Or.inr (Or.inl rfl))).1 rfl,
   (not_implemented_inst sampleDelegate instLandingPad emptyState (Or.inl rfl)).2 rfl⟩

/-- C11: for a function and an instruction of it whose static type is a pointer type,
the state in which the registration pass over the function ends gives the
instruction a value node `n`. For a function that is not skipped, that state is the
one in which the translation pass over the function starts. And with a delegate that
only adds nodes, `n` is still the value node of the instruction in every state the
translation pass reaches, so when translation visits the instruction or any user of
it, wherever they stand in the function. -/
theorem registration_complete (d : CallDelegate) (f : Function) (fs : List Function)
    (s : Andersen) (inst : Instruction) (hin : inst ∈ f.instructions)
    (hp : inst.getType.isPointerTy = true) :
    ∃ n, (registerValueNodes f.instructions s).nodeFactory.getValueNodeFor inst.value = some n ∧
      ((f.isDeclaration || f.isIntrinsic) = false →
        collectFunctions d (f :: fs) s =
          match translateInstructions d f.instructions (registerValueNodes f.instructions s) with
          | .done s' => collectFunctions d fs s'
          | .abort e s' => .abort e s') ∧
      (DelegateExtendsNodes d → ∀ (pre rest : List Instruction) (s2 : Andersen),
        f.instructions = pre ++ rest →
        translateInstructions d pre (registerValueNodes f.instructions s) = .done s2 →
        s2.nodeFactory.getValueNodeFor inst.value = some n) := by
  obtain ⟨n, hn⟩ := registerValueNodes_registers f.instructions s inst hin hp
  refine ⟨n, hn, ?_, ?_⟩
  · intro hskip
    simp [collectFunctions, hskip]
  · intro hd pre rest s2 _ hrun
    exact getValueNodeFor_stable (translate_nodes hd pre hrun) hn

/-- C11, at the function whose PHI precedes the load `%b` it takes as incoming value,
from the empty state: registration gives `%p` the node 4 and `%b` the node 5, and
the translation of the PHI, first in the function, finds the node of `%b`. -/
theorem registration_complete_witness :
    (∃ n, (registerValueNodes fnPhiFirst.instructions emptyState).nodeFactory.getValueNodeFor
          instB.value = some n ∧
      ((fnPhiFirst.isDeclaration || fnPhiFirst.isIntrinsic) = false →
        collectFunctions sampleDelegate (fnPhiFirst :: []) emptyState =
          match translateInstructions sampleDelegate fnPhiFirst.instructions
              (registerValueNodes fnPhiFirst.instructions emptyState) with
          | .done s' => collectFunctions sampleDelegate [] s'
          | .abort e s' => .abort e s') ∧
      (DelegateExtendsNodes sampleDelegate → ∀ (pre rest : List Instruction) (s2 : Andersen),
        fnPhiFirst.instructions = pre ++ rest →
        translateInstructions sampleDelegate pre
          (registerValueNodes fnPhiFirst.instructions emptyState) = .done s2 →
        s2.nodeFactory.getValueNodeFor instB.value = some n)) ∧
    (registerValueNodes fnPhiFirst.instructions emptyState).nodeFactory.getValueNodeFor
        instB.value = some 5 ∧
    (collectConstraintsForInstruction sampleDelegate instPhi
        (registerValueNodes fnPhiFirst.instructions emptyState)).state.constraints =
      [⟨.COPY, 4, 5⟩, ⟨.COPY, 4, 2⟩] :=
  ⟨registration_complete sampleDelegate fnPhiFirst [] emptyState instB (by decide) rfl,
    by decide, by decide⟩

/-- C19: an instruction that is not an alloca, call or invoke leaves the node factory
as it is (also when the call halts). An alloca that has a value node ends normally,
having added exactly one node to the node factory, an object node for that
instruction, with every value-node and return-node lookup unchanged. And that is the
case of every alloca the run translates: in the state in which the translation pass
of a function reaches a (well-formed) alloca of it, with a delegate that only adds
nodes, the alloca has the value node the registration pass gave it, so its
translation adds exactly one object node and changes no value or return node. -/
theorem node_model_frame (d : CallDelegate) (inst : Instruction) (s : Andersen) :
    (inst.opcode ≠ .Alloca → inst.opcode ≠ .Call → inst.opcode ≠ .Invoke →
        (collectConstraintsForInstruction d inst s).state.nodeFactory = s.nodeFactory) ∧
      (inst.opcode = .Alloca →
        ∀ va, s.nodeFactory.getValueNodeFor inst.value = some va →
          ∃ s', collectConstraintsForInstruction d inst s = .done s' ∧
            s'.nodeFactory.nodes = s.nodeFactory.nodes ++ [⟨.OBJ_NODE, inst.value⟩] ∧
            (∀ v, s'.nodeFactory.getValueNodeFor v = s.nodeFactory.getValueNodeFor v) ∧
            (∀ f, s'.nodeFactory.getReturnNodeFor f = s.nodeFactory.getReturnNodeFor f)) ∧
      (inst.opcode = .Alloca → inst.wellFormed = true → DelegateExtendsNodes d →
        ∀ (f : Function) (pre rest : List Instruction) (s0 : Andersen),
          f.instructions = pre ++ inst :: rest →
          translateInstructions d pre (registerValueNodes f.instructions s0) = .done s →
          ∃ s', collectConstraintsForInstruction d inst s = .done s' ∧
            s'.nodeFactory.nodes = s.nodeFactory.nodes ++ [⟨.OBJ_NODE, inst.value⟩] ∧
            (∀ v, s'.nodeFactory.getValueNodeFor v = s.nodeFactory.getValueNodeFor v) ∧
            (∀ f, s'.nodeFactory.getReturnNodeFor f = s.nodeFactory.getReturnNodeFor f)) := by
  refine ⟨fun ha hc hi => (step_footprint d inst s ha hc hi).1,
    fun hop va hva => alloca_frame d inst s va hop hva, ?_⟩
  intro hop hwf hn f pre rest s0 hinsts hrun
  have hp : inst.getType.isPointerTy = true := by
    simpa [Instruction.wellFormed, hop] using hwf
  have hin : inst ∈ f.instructions := by
    rw [hinsts]
    simp
  obtain ⟨va, hva⟩ := registerValueNodes_registers f.instructions s0 inst hin hp
  exact alloca_frame d inst s va hop
    (getValueNodeFor_stable (translate_nodes hn pre hrun) hva)

/-- C19, at the load `%b` (node factory untouched) and at `%a = alloca i32*`, first in
the function of the worked example, in the state the translation pass starts from
(one object node added for `%a`, at the end). -/
theorem node_model_frame_witness :
    (collectConstraintsForInstruction sampleDelegate instB stateRegistered).state.nodeFactory =
        stateRegistered.nodeFactory ∧
      ∃ s', collectConstraintsForInstruction sampleDelegate instA stateRegistered = .done s' ∧
        s'.nodeFactory.nodes =
          stateRegistered.nodeFactory.nodes ++ [⟨.OBJ_NODE, instA.value⟩] ∧
        (∀ v, s'.nodeFactory.getValueNodeFor v = stateRegistered.nodeFactory.getValueNodeFor v) ∧
        (∀ f, s'.nodeFactory.getReturnNodeFor f =
          stateRegistered.nodeFactory.getReturnNodeFor f) :=
  ⟨(node_model_frame sampleDelegate instB stateRegistered).1 (by decide) (by decide)
      (by decide),
   (node_model_frame sampleDelegate instA stateRegistered).2.2 rfl rfl
      sampleDelegate_extendsNodes ⟨fnS, false, false, [instA, instStore, instB, instRet]⟩
      [] [instStore, instB, instRet] stateS rfl (by decide)⟩

/-- C18: for a well-formed instruction whose static type is a pointer type and which
is not a call or invoke, `collectConstraintsForInstruction` either appends at least
one constraint, each appended constraint having the value node of the instruction as
destination, or writes to the diagnostic stream, or halts with an internal error; it
never ends normally with the state as it was (list unchanged, nothing logged). -/
theorem pointer_inst_not_dropped (d : CallDelegate) (inst : Instruction) (s : Andersen)
    (hwf : inst.wellFormed = true) (hp : inst.getType.isPointerTy = true)
    (hc : inst.opcode ≠ .Call) (hi : inst.opcode ≠ .Invoke) :
    ((∃ cs, (collectConstraintsForInstruction d inst s).state.constraints = s.constraints ++ cs ∧
          cs ≠ [] ∧ ∀ c ∈ cs, s.nodeFactory.getValueNodeFor inst.value = some c.dest) ∨
        (collectConstraintsForInstruction d inst s).state.errs ≠ s.errs ∨
        (collectConstraintsForInstruction d inst s).isDone = false) ∧
      collectConstraintsForInstruction d inst s ≠ .done s := by
  have h := pointer_inst_core d inst s hwf hp hc hi
  refine ⟨h, fun heq => ?_⟩
  rw [heq] at h
  rcases h with ⟨cs, hcs, hne, _⟩ | h | h
  · simp only [Outcome.state] at hcs
    exact hne (List.append_right_eq_self.mp hcs.symm)
  · exact h rfl
  · cases h

/-- C18, at `%g = getelementptr i32** %a, i32 0` with its nodes registered (COPY into
its value node 7 is appended) and at the address-space cast (halts). -/
theorem pointer_inst_not_dropped_witness :
    ((∃ cs, (collectConstraintsForInstruction sampleDelegate instGep stateMore).state.constraints
            = stateMore.constraints ++ cs ∧
          cs ≠ [] ∧ ∀ c ∈ cs, stateMore.nodeFactory.getValueNodeFor instGep.value = some c.dest) ∨
        (collectConstraintsForInstruction sampleDelegate instGep stateMore).state.errs ≠
          stateMore.errs ∨
        (collectConstraintsForInstruction sampleDelegate instGep stateMore).isDone = false) ∧
      collectConstraintsForInstruction sampleDelegate instGep stateMore ≠ .done stateMore ∧
      collectConstraintsForInstruction sampleDelegate instCastX stateMore ≠ .done stateMore :=
  ⟨(pointer_inst_not_dropped sampleDelegate instGep stateMore rfl rfl (by decide)
      (by decide)).1,
   (pointer_inst_not_dropped sampleDelegate instGep stateMore rfl rfl (by decide)
      (by decide)).2,
   (pointer_inst_not_dropped sampleDelegate instCastX stateMore rfl rfl (by decide)
      (by decide)).2⟩

/-- C13: with a call-site delegate that appends, the constraint list in which
`collectConstraints` ends is the start list, the three bootstrap constraints, and
then the concatenation, over the functions that are not skipped in module order and
over the instructions of each in program order, of what the translation of each
instruction appends. In particular, with a delegate that also only adds nodes, for a
store `store %v, %p` of a pointer-typed `%v` immediately followed by a pointer-typed
load `%r = load %p` in such a function, a run that ends normally has
STORE(node of %p, node of %v) at some index `i` and LOAD(node of %r, node of %p) at
index `i + 1`. -/
theorem constraints_in_program_order (d : CallDelegate) (hd : DelegateAppends d) (M : Module)
    (s : Andersen) :
    (collectConstraints d M s).state.constraints =
        s.constraints ++
          [⟨.ADDR_OF, AndersNodeFactory.getUniversalPtrNode,
              AndersNodeFactory.getUniversalObjNode⟩,
           ⟨.STORE, AndersNodeFactory.getUniversalObjNode,
              AndersNodeFactory.getUniversalObjNode⟩,
           ⟨.ADDR_OF, AndersNodeFactory.getNullPtrNode,
              AndersNodeFactory.getNullObjectNode⟩] ++
          appendedByFunctions d M.functions (bootstrap s) ∧
      (DelegateExtendsNodes d →
        ∀ (f : Function) (pre post : List Instruction) (st ld : Instruction) (v p : Value)
          (s' : Andersen),
          f ∈ M.functions → (f.isDeclaration || f.isIntrinsic) = false →
          f.instructions = pre ++ st :: ld :: post →
          st.opcode = .Store → st.operands = [v, p] → v.type.isPointerTy = true →
          ld.opcode = .Load → ld.operands = [p] → ld.getType.isPointerTy = true →
          collectConstraints d M s = .done s' →
          ∃ (nv np nr : NodeIndex) (i : Nat),
            s'.nodeFactory.getValueNodeFor v = some nv ∧
            s'.nodeFactory.getValueNodeFor p = some np ∧
            s'.nodeFactory.getValueNodeFor ld.value = some nr ∧
            s'.constraints[i]? = some ⟨.STORE, np, nv⟩ ∧
            s'.constraints[i + 1]? = some ⟨.LOAD, nr, np⟩) := by
  constructor
  · have h := functions_appended d hd M.functions (bootstrap s)
    unfold collectConstraints
    rw [h]
    simp [bootstrap, Andersen.emplace_back]
  · intro hn f pre post st ld v p s' hf hskip hinsts hst hstops hv hld hldops hr hrun
    exact store_load_adjacent hd hn M.functions f hf hskip pre post st ld v p hinsts hst
      hstops hv hld hldops hr hrun

/-- C13, at the function
`%a = alloca i32*; store i32* %v, i32** %a; %b = load i32** %a; ret i32* %b` with the
argument `%v` on node 5: the list is the bootstrap entries and then the entries of
the four instructions in order, with STORE(6, 5) right before LOAD(7, 6). -/
theorem constraints_in_program_order_witness :
    (collectConstraints sampleDelegate moduleStoreLoad stateArg).state.constraints =
        [⟨.ADDR_OF, 0, 1⟩, ⟨.STORE, 1, 1⟩, ⟨.ADDR_OF, 2, 3⟩, ⟨.ADDR_OF, 6, 8⟩, ⟨.STORE, 6, 5⟩,
          ⟨.LOAD, 7, 6⟩, ⟨.COPY, 4, 7⟩] ∧
      ∃ (nv np nr : NodeIndex) (i : Nat),
        stateStoreLoadFinal.nodeFactory.getValueNodeFor argV = some nv ∧
        stateStoreLoadFinal.nodeFactory.getValueNodeFor instA.value = some np ∧
        stateStoreLoadFinal.nodeFactory.getValueNodeFor instB.value = some nr ∧
        stateStoreLoadFinal.constraints[i]? = some ⟨.STORE, np, nv⟩ ∧
        stateStoreLoadFinal.constraints[i + 1]? = some ⟨.LOAD, nr, np⟩ :=
  ⟨(constraints_in_program_order sampleDelegate sampleDelegate_appends moduleStoreLoad
      stateArg).1.trans (by decide),
   (constraints_in_program_order sampleDelegate sampleDelegate_appends moduleStoreLoad
      stateArg).2 sampleDelegate_extendsNodes
      ⟨fnS, false, false, [instA, instStoreV, instB, instRet]⟩ [instA] [instRet] instStoreV
      instB argV instA.value stateStoreLoadFinal (by decide) rfl rfl rfl rfl rfl rfl rfl rfl
      (by decide)⟩

end AndersAA
